import Mathlib

/-!
# Verification of `lib/Code.cpp`

A shallow embedding of the algorithm library of the benchmark (`reverse_array`,
`linear_search`, `binary_search`, `bubble_sort`) and the properties of it.

Modelling conventions:

* a C `int` index or length is an `Int`; every arithmetic operation on such a
  value is checked against the 32-bit signed range (`fits`), and an operation
  whose mathematical result is not representable has no defined result
  (`none`), as signed overflow has none in C;
* an `int[]` is a `List Int`; a read or write outside the list has no defined
  result (`none`); array elements are only ever compared and copied, never
  computed with;
* a function that returns a value returns `Option Int`, a function that updates
  the array in place returns the updated array, `Option (List Int)`;
* loops are recursive functions on the loop variables, total by well-founded
  recursion on the distance to the loop bound;
* `binary_search` and `bubble_sort` have a second, instrumented version that
  also returns the record of the iterations or comparisons made; each is
  proved to compute the value of the plain version;
* what `main` takes from outside (the values of `rand()`, the success of
  `malloc`, the content of fresh blocks, the printed text of each timing) is
  an explicit input, `Env`; the clock and floating point are not modelled.
-/

namespace Code

/-! ## Machine integers and array cells -/

/-- Largest value of a 32-bit signed `int`. -/
abbrev INT_MAX : Int := 2147483647

/-- Smallest value of a 32-bit signed `int`. -/
abbrev INT_MIN : Int := -2147483648

/-- The value is representable as a 32-bit signed `int`. -/
abbrev fits (x : Int) : Prop := INT_MIN ≤ x ∧ x ≤ INT_MAX

/-- The read `arr[i]`: defined only inside the array. -/
def rd (arr : List Int) (i : Int) : Option Int :=
  if 0 ≤ i then arr[i.toNat]? else none

/-- The write `arr[i] = v`: defined only inside the array. -/
def wr (arr : List Int) (i : Int) (v : Int) : Option (List Int) :=
  if 0 ≤ i ∧ i.toNat < arr.length then some (arr.set i.toNat v) else none

/-! ## `linear_search` -/

/-- The loop `for (int i = 0; i < n; i++)` of `linear_search`, from index `i`. -/
def linear_search_loop (arr : List Int) (n target : Int) (i : Int) : Option Int :=
  if _h : i < n then
    match rd arr i with
    | none => none
    | some v =>
      if v = target then some i
      else if fits (i + 1) then linear_search_loop arr n target (i + 1)
      else none
  else some (-1)
termination_by (n - i).toNat
decreasing_by omega

/-- `int linear_search(int arr[], int n, int target)`. -/
def linear_search (arr : List Int) (n target : Int) : Option Int :=
  linear_search_loop arr n target 0

/-! ## `reverse_array` -/

/-- The loop `while (start < end)` of `reverse_array`: swap `arr[start]` and
`arr[end]`, then `start++` and `end--`. -/
def reverse_array_loop (arr : List Int) (start end_ : Int) : Option (List Int) :=
  if _h : start < end_ then do
    let temp ← rd arr start
    let last ← rd arr end_
    let arr1 ← wr arr start last
    let arr2 ← wr arr1 end_ temp
    if fits (start + 1) ∧ fits (end_ - 1) then
      reverse_array_loop arr2 (start + 1) (end_ - 1)
    else none
  else some arr
termination_by (end_ - start).toNat
decreasing_by omega

/-- `void reverse_array(int arr[], int n)`: `start = 0`, `end = n - 1`, then the loop. -/
def reverse_array (arr : List Int) (n : Int) : Option (List Int) :=
  if fits (n - 1) then reverse_array_loop arr 0 (n - 1) else none

/-! ## `binary_search` -/

/-- The midpoint `low + (high - low) / 2` of C, with `/` truncating towards zero. -/
def midpoint (low high : Int) : Int := low + (high - low).tdiv 2

/-- `int binary_search(int arr[], int low, int high, int target)`: the loop
`while (low <= high)` runs on the parameters themselves. -/
def binary_search (arr : List Int) (low high target : Int) : Option Int :=
  if _h : low ≤ high then
    if fits (high - low) ∧ fits (midpoint low high) then
      match rd arr (midpoint low high) with
      | none => none
      | some v =>
        if v = target then some (midpoint low high)
        else if v < target then
          if fits (midpoint low high + 1) then
            binary_search arr (midpoint low high + 1) high target
          else none
        else
          if fits (midpoint low high - 1) then
            binary_search arr low (midpoint low high - 1) target
          else none
    else none
  else some (-1)
termination_by (high - low + 1).toNat
decreasing_by
  all_goals
    have hm : low ≤ midpoint low high ∧ midpoint low high ≤ high := by
      unfold midpoint
      rw [Int.tdiv_eq_ediv (by omega) (by omega)]
      omega
    omega

/-! ## `bubble_sort` -/

/-- The inner loop `for (j = 0; j < n - i - 1; j++)` of `bubble_sort`, from
index `j`: compare `arr[j]` with `arr[j + 1]` and swap them when out of order. -/
def bubble_sort_inner (arr : List Int) (n i j : Int) : Option (List Int) :=
  if fits (n - i) ∧ fits (n - i - 1) then
    if _h : j < n - i - 1 then
      if fits (j + 1) then do
        let a ← rd arr j
        let b ← rd arr (j + 1)
        if a > b then
          let arr1 ← wr arr j b
          let arr2 ← wr arr1 (j + 1) a
          bubble_sort_inner arr2 n i (j + 1)
        else
          bubble_sort_inner arr n i (j + 1)
      else none
    else some arr
  else none
termination_by (n - i - 1 - j).toNat
decreasing_by all_goals omega

/-- The outer loop `for (i = 0; i < n - 1; i++)` of `bubble_sort`, from pass `i`. -/
def bubble_sort_outer (arr : List Int) (n i : Int) : Option (List Int) :=
  if fits (n - 1) then
    if _h : i < n - 1 then
      match bubble_sort_inner arr n i 0 with
      | none => none
      | some arr1 =>
        if fits (i + 1) then bubble_sort_outer arr1 n (i + 1) else none
    else some arr
  else none
termination_by (n - 1 - i).toNat
decreasing_by omega

/-- `void bubble_sort(int arr[], int n)`. -/
def bubble_sort (arr : List Int) (n : Int) : Option (List Int) :=
  bubble_sort_outer arr n 0

/-! ## The midpoint in wrapping 32-bit arithmetic -/

/-- Reduction of an integer to the 32-bit two-complement range, as a machine
addition or subtraction on `int` would leave it. -/
def wrap32 (x : Int) : Int := (x + 2147483648) % 4294967296 - 2147483648

/-- The midpoint expression `low + (high - low) / 2` evaluated in wrapping
32-bit arithmetic. -/
def midpoint32 (low high : Int) : Int :=
  wrap32 (low + wrap32 ((wrap32 (high - low)).tdiv 2))

/-- The naive midpoint expression `(low + high) / 2` evaluated in wrapping
32-bit arithmetic. -/
def naive_midpoint32 (low high : Int) : Int :=
  wrap32 ((wrap32 (low + high)).tdiv 2)

/-! ## Instrumented `binary_search` -/

/-- One iteration of the loop of `binary_search`: the bounds at the loop test and
the index `mid` whose cell is read. -/
structure Probe where
  low : Int
  high : Int
  mid : Int
deriving DecidableEq

/-- The function `binary_search` with a record of its iterations: the returned
value and, in order, one `Probe` for every execution of the loop body. -/
def binary_search_trace (arr : List Int) (low high target : Int) :
    Option (Int × List Probe) :=
  if _h : low ≤ high then
    if fits (high - low) ∧ fits (midpoint low high) then
      match rd arr (midpoint low high) with
      | none => none
      | some v =>
        if v = target then some (midpoint low high, [⟨low, high, midpoint low high⟩])
        else if v < target then
          if fits (midpoint low high + 1) then
            (binary_search_trace arr (midpoint low high + 1) high target).map
              (fun r => (r.1, ⟨low, high, midpoint low high⟩ :: r.2))
          else none
        else
          if fits (midpoint low high - 1) then
            (binary_search_trace arr low (midpoint low high - 1) target).map
              (fun r => (r.1, ⟨low, high, midpoint low high⟩ :: r.2))
          else none
    else none
  else some (-1, [])
termination_by (high - low + 1).toNat
decreasing_by
  all_goals
    have hm : low ≤ midpoint low high ∧ midpoint low high ≤ high := by
      unfold midpoint
      rw [Int.tdiv_eq_ediv (by omega) (by omega)]
      omega
    omega

/-- Successive iterations: the next bounds are one of the two halves around
`mid`, and the width `high - low + 1` strictly decreases. -/
def narrows (p q : Probe) : Prop :=
  ((q.low = p.mid + 1 ∧ q.high = p.high) ∨ (q.low = p.low ∧ q.high = p.mid - 1)) ∧
  q.high - q.low + 1 < p.high - p.low + 1

/-- Number of loop iterations (probes of `arr[mid]`) of a call of `binary_search`. -/
def binary_search_iterations (arr : List Int) (low high target : Int) : Option Nat :=
  (binary_search_trace arr low high target).map (fun r => r.2.length)

/-! ## Instrumented `bubble_sort` -/

/-- The inner loop of `bubble_sort` with a record of its comparisons: the updated
array and, in order, the pair of indices `(j, j + 1)` of every evaluation of
`arr[j] > arr[j + 1]`. -/
def bubble_sort_inner_trace (arr : List Int) (n i j : Int) :
    Option (List Int × List (Int × Int)) :=
  if fits (n - i) ∧ fits (n - i - 1) then
    if _h : j < n - i - 1 then
      if fits (j + 1) then do
        let a ← rd arr j
        let b ← rd arr (j + 1)
        if a > b then
          let arr1 ← wr arr j b
          let arr2 ← wr arr1 (j + 1) a
          (bubble_sort_inner_trace arr2 n i (j + 1)).map (fun r => (r.1, (j, j + 1) :: r.2))
        else
          (bubble_sort_inner_trace arr n i (j + 1)).map (fun r => (r.1, (j, j + 1) :: r.2))
      else none
    else some (arr, [])
  else none
termination_by (n - i - 1 - j).toNat
decreasing_by all_goals omega

/-- The outer loop of `bubble_sort` with a record of its passes: the updated array
and, in order, the comparisons of every execution of the inner loop. -/
def bubble_sort_outer_trace (arr : List Int) (n i : Int) :
    Option (List Int × List (List (Int × Int))) :=
  if fits (n - 1) then
    if _h : i < n - 1 then
      match bubble_sort_inner_trace arr n i 0 with
      | none => none
      | some r1 =>
        if fits (i + 1) then
          (bubble_sort_outer_trace r1.1 n (i + 1)).map (fun r => (r.1, r1.2 :: r.2))
        else none
    else some (arr, [])
  else none
termination_by (n - 1 - i).toNat
decreasing_by omega

/-- The function `bubble_sort` with the record of its passes. -/
def bubble_sort_trace (arr : List Int) (n : Int) :
    Option (List Int × List (List (Int × Int))) :=
  bubble_sort_outer_trace arr n 0

/-- The comparisons of pass `i` as the specification gives them: the adjacent
pairs `(j, j + 1)` for `j = 0 .. n - i - 2`, in that order. -/
def spec_pass (n i : Nat) : List (Int × Int) :=
  (List.range (n - i - 1)).map (fun j : Nat => ((j : Int), (j : Int) + 1))

/-- The passes as the specification gives them: pass `i` for `i = 0 .. n - 2`. -/
def spec_passes (n : Nat) : List (List (Int × Int)) :=
  (List.range (n - 1)).map (fun i : Nat => spec_pass n i)

/-! ## `generate_random_array` -/

/-- The loop `for (int i = 0; i < n; i++)` of `generate_random_array`, from index
`i`: `arr[i] = rand() % 1000000`. The library function `rand` is a stream:
`rand k` is the value of call number `k` since `srand(12345)`, and `calls` the
number of calls made so far; `%` truncates towards zero. -/
def generate_random_array_loop (rand : Nat → Int) (arr : List Int) (n i : Int)
    (calls : Nat) : Option (List Int) :=
  if _h : i < n then
    match wr arr i ((rand calls).tmod 1000000) with
    | none => none
    | some arr1 =>
      if fits (i + 1) then generate_random_array_loop rand arr1 n (i + 1) (calls + 1)
      else none
  else some arr
termination_by (n - i).toNat
decreasing_by omega

/-- `void generate_random_array(int arr[], int n)`: `srand(12345)` restarts the
stream, then the loop runs from `i = 0`. -/
def generate_random_array (rand : Nat → Int) (arr : List Int) (n : Int) :
    Option (List Int) :=
  generate_random_array_loop rand arr n 0 0

/-! ## The test harness `main` -/

/-- What a run of `main` takes from outside the program. -/
structure Env where
  /-- The value returned by call number `k` of `rand()` since `srand(12345)`. -/
  rand : Nat → Int
  /-- Whether call number `k` of `malloc` succeeds: call 0 allocates the base
  array, call `i + 1` the working array of size index `i`. -/
  malloc_ok : Nat → Bool
  /-- The indeterminate initial content of cell `j` of the block of call `k`. -/
  fresh : Nat → Nat → Int
  /-- The text printed by `printf("%.6f", cpu_time_used)` for size index `i` and
  measurement `c` (0 linear search, 1 binary search, 2 bubble sort); the clock
  and the floating-point division are outside the model. -/
  time_text : Nat → Nat → List Char

/-- The call `(int *)malloc(n * sizeof(int))` number `k`: a block of `n` cells, or
`none` for a null pointer. -/
def malloc (env : Env) (k : Nat) (n : Int) : Option (List Int) :=
  if env.malloc_ok k then some ((List.range n.toNat).map (env.fresh k)) else none

/-- The loop `for (int k = 0; k < n; k++) arr[k] = arr_base[k];`, from index `k`. -/
def copy_loop (arr_base arr : List Int) (n k : Int) : Option (List Int) :=
  if _h : k < n then
    match rd arr_base k with
    | none => none
    | some v =>
      match wr arr k v with
      | none => none
      | some arr1 => if fits (k + 1) then copy_loop arr_base arr1 n (k + 1) else none
  else some arr
termination_by (n - k).toNat
decreasing_by omega

/-- What the three tests of one size saw; `main` itself discards the values
returned by the searches and frees the working array. -/
structure TestRun where
  /-- The size `n`. -/
  n : Int
  /-- The value returned by `linear_search` in Test 1. -/
  linear_result : Int
  /-- The working array after the `bubble_sort` of Test 2. -/
  sorted : List Int
  /-- The value returned by `binary_search` in Test 2. -/
  binary_result : Int
  /-- The working array handed to the measured `bubble_sort` of Test 3. -/
  test3_input : List Int
  /-- The working array after the `bubble_sort` of Test 3. -/
  test3_output : List Int

/-- The state of `main` between two sizes: the base array, the text written to
standard output so far, and the record of the tests run. -/
structure State where
  arr_base : List Int
  stdout : List Char
  tests : List TestRun

/-- The header line `printf` writes first. -/
def header : List Char :=
  "N,Linear_Search_Time_s,Binary_Search_Time_s,Bubble_Sort_Time_s\n".toList

/-- The body of the loop of `main` for size index `i` and size `n`. The pointer
returned by `malloc` is not tested: with a null pointer the copy loop writes
through it and the run is not defined. -/
def main_test (env : Env) (i : Nat) (n : Int) (st : State) : Option State := do
  let arr0 ← malloc env (i + 1) n
  let arr ← copy_loop st.arr_base arr0 n 0
  let out1 := st.stdout ++ (toString n).toList ++ [',']
  if fits (n - 1) then do
    let target_linear ← rd arr (n - 1)
    let r1 ← linear_search arr n target_linear
    let out2 := out1 ++ env.time_text i 0 ++ [',']
    let sorted ← bubble_sort arr n
    let target_binary ← rd sorted (n - 1)
    let r2 ← binary_search sorted 0 (n - 1) target_binary
    let out3 := out2 ++ env.time_text i 1 ++ [',']
    let arr1 ← copy_loop st.arr_base sorted n 0
    let arr2 ← reverse_array arr1 n
    let arr3 ← bubble_sort arr2 n
    let out4 := out3 ++ env.time_text i 2 ++ ['\n']
    some { arr_base := st.arr_base, stdout := out4,
           tests := st.tests ++ [⟨n, r1, sorted, r2, arr2, arr3⟩] }
  else none

/-- The sizes `int n_values[] = {1000, 10000, 100000, 1000000}`. -/
def n_values : List Int := [1000, 10000, 100000, 1000000]

/-- The count `sizeof(n_values) / sizeof(n_values[0])`. -/
def num_tests : Int := n_values.length

/-- The constant `MAX_N`. -/
def MAX_N : Int := 1000000

/-- The loop `for (int i = 0; i < num_tests; i++)` of `main`, from index `i`. -/
def main_loop (env : Env) (st : State) (i : Int) : Option State :=
  if _h : i < num_tests then
    match rd n_values i with
    | none => none
    | some n =>
      match main_test env i.toNat n st with
      | none => none
      | some st1 => if fits (i + 1) then main_loop env st1 (i + 1) else none
  else some st
termination_by (num_tests - i).toNat
decreasing_by omega

/-- How a run of `main` ends: the exit code, the two output streams, the base
array as it is before `free(arr_base)`, and the record of the tests. -/
structure Exit where
  code : Int
  stdout : List Char
  stderr : List Char
  arr_base : List Int
  tests : List TestRun

/-- `int main()`. -/
def main (env : Env) : Option Exit :=
  match malloc env 0 MAX_N with
  | none => some ⟨1, [], "Memory allocation failed.\n".toList, [], []⟩
  | some block =>
    match generate_random_array env.rand block MAX_N with
    | none => none
    | some arr_base =>
      match main_loop env ⟨arr_base, header, []⟩ 0 with
      | none => none
      | some st => some ⟨0, st.stdout, [], st.arr_base, st.tests⟩

/-- One data line as the specification gives it: the decimal `N`, then the three
timings, comma-separated and newline-terminated. -/
def spec_line (env : Env) (i : Nat) (n : Int) : List Char :=
  (toString n).toList ++ [','] ++ env.time_text i 0 ++ [','] ++ env.time_text i 1 ++ [','] ++
    env.time_text i 2 ++ ['\n']

/-- The record of the tests of size `n` agrees with the base array: Test 2 sorted
the first `n` base cells, Test 3 was handed their reversal and ended on the
array Test 2 had sorted. -/
def test_record_ok (base : List Int) (n : Int) (t : TestRun) : Prop :=
  t.n = n ∧ bubble_sort (base.take n.toNat) n = some t.sorted ∧
  t.test3_input = (base.take n.toNat).reverse ∧ t.test3_output = t.sorted

/-- A sample environment: `rand()` returns 1, then 0 for ever; every allocation
succeeds; fresh blocks hold zeros; every timing prints as `0.000000`. -/
def sample_env : Env where
  rand := fun k => if k = 0 then 1 else 0
  malloc_ok := fun _ => true
  fresh := fun _ _ => 0
  time_text := fun _ _ => "0.000000".toList

/-! ## Cells: basic facts -/

/-- A step of a sequence of fallible statements whose first statement succeeds. -/
theorem bind_of_eq_some {α β : Type} {x : Option α} {a : α} (f : α → Option β)
    (h : x = some a) : (x >>= f) = f a := by
  subst h; rfl

theorem rd_natCast (arr : List Int) (k : Nat) : rd arr (k : Int) = arr[k]? := by
  simp [rd]

theorem wr_natCast (arr : List Int) (k : Nat) (v : Int) (h : k < arr.length) :
    wr arr (k : Int) v = some (arr.set k v) := by
  simp [wr, h]

theorem rd_some_of_lt (arr : List Int) (i : Int) (h0 : 0 ≤ i) (h1 : i < arr.length) :
    ∃ v, rd arr i = some v := by
  have h : i.toNat < arr.length := by omega
  exact ⟨arr[i.toNat], by simp [rd, h0, List.getElem?_eq_getElem h]⟩

/-! ## `linear_search`: the loop -/

theorem linear_search_loop_spec (arr : List Int) (n target : Int)
    (hlen : n ≤ arr.length) (hmax : n ≤ INT_MAX) :
    ∀ (k : Nat) (i : Int), (n - i).toNat = k → 0 ≤ i → i ≤ n →
      (∃ r, linear_search_loop arr n target i = some r ∧ i ≤ r ∧ r < n ∧
          rd arr r = some target ∧ ∀ j, i ≤ j → j < r → rd arr j ≠ some target) ∨
      (linear_search_loop arr n target i = some (-1) ∧
          ∀ j, i ≤ j → j < n → rd arr j ≠ some target) := by
  intro k
  induction k with
  | zero =>
    intro i hk _ hin
    right
    have hi : ¬ i < n := by omega
    rw [linear_search_loop, dif_neg hi]
    exact ⟨rfl, fun j h1 h2 => by omega⟩
  | succ k ih =>
    intro i hk hi0 hin
    have hi : i < n := by omega
    obtain ⟨v, hv⟩ := rd_some_of_lt arr i hi0 (by omega)
    rw [linear_search_loop, dif_pos hi, hv]
    dsimp only
    by_cases hvt : v = target
    · left
      refine ⟨i, by simp [hvt], le_refl _, hi, by rw [hv, hvt], fun j h1 h2 => by omega⟩
    · have hf : fits (i + 1) := by constructor <;> simp only [INT_MIN, INT_MAX] at * <;> omega
      rw [if_neg hvt, if_pos hf]
      have hne : rd arr i ≠ some target := by
        rw [hv]; intro h; exact hvt (Option.some.inj h)
      rcases ih (i + 1) (by omega) (by omega) (by omega) with ⟨r, hr, h1, h2, h3, h4⟩ | ⟨hr, h1⟩
      · left
        refine ⟨r, hr, by omega, h2, h3, fun j hj1 hj2 => ?_⟩
        by_cases hji : j = i
        · rw [hji]; exact hne
        · exact h4 j (by omega) hj2
      · right
        refine ⟨hr, fun j hj1 hj2 => ?_⟩
        by_cases hji : j = i
        · rw [hji]; exact hne
        · exact h1 j (by omega) hj2

/-! ## `reverse_array`: the loop -/

theorem reverse_array_loop_spec :
    ∀ (d : Nat) (arr : List Int) (s e : Nat), e - s ≤ d → (s < e → e < arr.length) →
      (e : Int) ≤ INT_MAX →
      ∃ out, reverse_array_loop arr (s : Int) (e : Int) = some out ∧
        out.length = arr.length ∧
        ∀ k : Nat, out[k]? = if s ≤ k ∧ k ≤ e then arr[s + e - k]? else arr[k]? := by
  intro d
  induction d with
  | zero =>
    intro arr s e hd _ _
    have hse : ¬ ((s : Int) < (e : Int)) := by omega
    refine ⟨arr, by rw [reverse_array_loop, dif_neg hse], rfl, fun k => ?_⟩
    split
    · next h => rw [show s + e - k = k by omega]
    · rfl
  | succ d ih =>
    intro arr s e hd hlen hmax
    by_cases hse : s < e
    · have he := hlen hse
      have hs : s < arr.length := by omega
      have hseI : (s : Int) < (e : Int) := by omega
      have hf : fits ((s : Int) + 1) ∧ fits ((e : Int) - 1) := by
        simp only [fits, INT_MIN, INT_MAX] at *
        omega
      have e1 : (s : Int) + 1 = ((s + 1 : Nat) : Int) := by push_cast; rfl
      have e2 : (e : Int) - 1 = ((e - 1 : Nat) : Int) := by omega
      obtain ⟨out, hout, hl, hk⟩ := ih ((arr.set s arr[e]).set e arr[s]) (s + 1) (e - 1)
        (by omega) (by intro _; simp only [List.length_set]; omega) (by omega)
      refine ⟨out, ?_, by simpa using hl, fun k => ?_⟩
      · have r1 : rd arr (s : Int) = some arr[s] := by
          rw [rd_natCast, List.getElem?_eq_getElem hs]
        have r2 : rd arr (e : Int) = some arr[e] := by
          rw [rd_natCast, List.getElem?_eq_getElem he]
        rw [reverse_array_loop, dif_pos hseI, bind_of_eq_some _ r1, bind_of_eq_some _ r2,
          bind_of_eq_some _ (wr_natCast arr s arr[e] hs),
          bind_of_eq_some _ (wr_natCast (arr.set s arr[e]) e arr[s] (by simpa using he)),
          if_pos hf, e1, e2]
        exact hout
      · rw [hk k]
        simp only [List.getElem?_set, List.length_set]
        by_cases h1 : k = s
        · subst h1
          have : ¬ (k + 1 ≤ k ∧ k ≤ e - 1) := by omega
          rw [if_neg this, if_neg (by omega), if_pos rfl, if_pos hs, if_pos (by omega),
            show k + e - k = e by omega, List.getElem?_eq_getElem he]
        · by_cases h2 : k = e
          · subst h2
            have : ¬ (s + 1 ≤ k ∧ k ≤ k - 1) := by omega
            rw [if_neg this, if_pos rfl, if_pos he, if_pos (by omega),
              show s + k - k = s by omega, List.getElem?_eq_getElem hs]
          · by_cases h3 : s ≤ k ∧ k ≤ e
            · rw [if_pos (by omega), if_pos h3, if_neg (by omega), if_neg (by omega),
                show s + 1 + (e - 1) - k = s + e - k by omega]
            · rw [if_neg (by omega), if_neg h3, if_neg (by omega), if_neg (by omega)]
    · have hseI : ¬ ((s : Int) < (e : Int)) := by omega
      refine ⟨arr, by rw [reverse_array_loop, dif_neg hseI], rfl, fun k => ?_⟩
      split
      · next h => rw [show s + e - k = k by omega]
      · rfl

/-- The whole of `reverse_array` on a slice of `n` cells: cell `k < n` receives
the former content of cell `n - 1 - k`, every other cell keeps its content. -/
theorem reverse_array_spec (arr : List Int) (n : Nat) (hlen : n ≤ arr.length)
    (hmax : (n : Int) ≤ INT_MAX) :
    ∃ out, reverse_array arr (n : Int) = some out ∧ out.length = arr.length ∧
      ∀ k : Nat, out[k]? = if k < n then arr[n - 1 - k]? else arr[k]? := by
  have hf : fits ((n : Int) - 1) := by
    simp only [fits, INT_MIN, INT_MAX] at *
    omega
  rcases Nat.eq_zero_or_pos n with h0 | hpos
  · subst h0
    refine ⟨arr, ?_, rfl, fun k => by simp⟩
    rw [reverse_array, if_pos hf, reverse_array_loop, dif_neg (by simp)]
  · obtain ⟨out, hout, hl, hk⟩ := reverse_array_loop_spec (n - 1) arr 0 (n - 1) (by omega)
      (by intro _; omega) (by omega)
    refine ⟨out, ?_, hl, fun k => ?_⟩
    · rw [reverse_array, if_pos hf]
      have e2 : (n : Int) - 1 = ((n - 1 : Nat) : Int) := by omega
      rw [e2]
      exact hout
    · rw [hk k]
      by_cases h : k < n
      · rw [if_pos (by omega), if_pos h, show 0 + (n - 1) - k = n - 1 - k by omega]
      · rw [if_neg (by omega), if_neg h]

/-! ## `binary_search`: one iteration -/

theorem midpoint_bounds (low high : Int) (h : low ≤ high) :
    low ≤ midpoint low high ∧ midpoint low high ≤ high := by
  unfold midpoint
  rw [Int.tdiv_eq_ediv (by omega) (by omega)]
  omega

theorem binary_search_exit (arr : List Int) (low high target : Int) (h : ¬ low ≤ high) :
    binary_search arr low high target = some (-1) := by
  rw [binary_search, dif_neg h]

theorem binary_search_step (arr : List Int) (low high target v : Int) (h : low ≤ high)
    (hf : fits (high - low) ∧ fits (midpoint low high))
    (hv : rd arr (midpoint low high) = some v) :
    binary_search arr low high target =
      if v = target then some (midpoint low high)
      else if v < target then
        if fits (midpoint low high + 1) then
          binary_search arr (midpoint low high + 1) high target
        else none
      else
        if fits (midpoint low high - 1) then
          binary_search arr low (midpoint low high - 1) target
        else none := by
  rw [binary_search, dif_pos h, if_pos hf, hv]

/-- Inside an array whose indices up to `high` are representable, the midpoint is
computed without overflow and the probed cell exists. -/
theorem binary_search_probe (arr : List Int) (low high : Int) (h : low ≤ high)
    (h0 : 0 ≤ low) (hlen : high < arr.length) (hmax : high ≤ INT_MAX) :
    (fits (high - low) ∧ fits (midpoint low high)) ∧
      ∃ v, rd arr (midpoint low high) = some v := by
  have hm := midpoint_bounds low high h
  refine ⟨?_, rd_some_of_lt arr _ (by omega) (by omega)⟩
  simp only [fits, INT_MIN, INT_MAX] at *
  omega

/-! ## `binary_search`: any array -/

theorem binary_search_sound (arr : List Int) (target : Int) :
    ∀ (d : Nat) (low high : Int), (high - low + 1).toNat ≤ d → 0 ≤ low →
      high < arr.length → high < INT_MAX →
      ∃ r, binary_search arr low high target = some r ∧
        (r = -1 ∨ (low ≤ r ∧ r ≤ high ∧ rd arr r = some target)) := by
  intro d
  induction d with
  | zero =>
    intro low high hd _ _ _
    exact ⟨-1, binary_search_exit arr low high target (by omega), Or.inl rfl⟩
  | succ d ih =>
    intro low high hd h0 hlen hmax
    by_cases h : low ≤ high
    · have hm := midpoint_bounds low high h
      obtain ⟨hf, v, hv⟩ := binary_search_probe arr low high h h0 hlen (by omega)
      rw [binary_search_step arr low high target v h hf hv]
      by_cases hvt : v = target
      · rw [if_pos hvt]
        exact ⟨_, rfl, Or.inr ⟨hm.1, hm.2, by rw [hv, hvt]⟩⟩
      · rw [if_neg hvt]
        by_cases hlt : v < target
        · have hf1 : fits (midpoint low high + 1) := by
            simp only [fits, INT_MIN, INT_MAX] at *
            omega
          rw [if_pos hlt, if_pos hf1]
          obtain ⟨r, hr, hres⟩ := ih (midpoint low high + 1) high (by omega) (by omega) hlen hmax
          refine ⟨r, hr, ?_⟩
          rcases hres with h1 | ⟨h1, h2, h3⟩
          · exact Or.inl h1
          · exact Or.inr ⟨by omega, h2, h3⟩
        · have hf1 : fits (midpoint low high - 1) := by
            simp only [fits, INT_MIN, INT_MAX] at *
            omega
          rw [if_neg hlt, if_pos hf1]
          obtain ⟨r, hr, hres⟩ := ih low (midpoint low high - 1) (by omega) h0 (by omega)
            (by omega)
          refine ⟨r, hr, ?_⟩
          rcases hres with h1 | ⟨h1, h2, h3⟩
          · exact Or.inl h1
          · exact Or.inr ⟨h1, by omega, h3⟩
    · exact ⟨-1, binary_search_exit arr low high target h, Or.inl rfl⟩

/-! ## `binary_search`: a sorted range that holds the target -/

/-- Adjacent order over `[low, high]` gives order between any two cells of the range. -/
theorem mono_of_adjacent (arr : List Int) (low high : Int) (h0 : 0 ≤ low)
    (hlen : high < arr.length)
    (hadj : ∀ j a b, low ≤ j → j < high → rd arr j = some a → rd arr (j + 1) = some b → a ≤ b) :
    ∀ (k : Nat) (i : Int) (a b : Int), low ≤ i → i + k ≤ high →
      rd arr i = some a → rd arr (i + k) = some b → a ≤ b := by
  intro k
  induction k with
  | zero =>
    intro i a b _ _ ha hb
    simp only [Nat.cast_zero, add_zero] at hb
    rw [ha] at hb
    exact le_of_eq (Option.some.inj hb)
  | succ k ih =>
    intro i a b hi hk ha hb
    obtain ⟨c, hc⟩ := rd_some_of_lt arr (i + k) (by omega) (by omega)
    have h1 := ih i a c hi (by omega) ha hc
    have h2 := hadj (i + k) c b (by omega) (by omega) hc
      (by rw [show i + (k : Int) + 1 = i + ((k + 1 : Nat) : Int) by push_cast; ring]; exact hb)
    exact le_trans h1 h2

theorem binary_search_complete (arr : List Int) (target : Int) :
    ∀ (d : Nat) (low high : Int), (high - low + 1).toNat ≤ d → 0 ≤ low →
      high < arr.length → high ≤ INT_MAX →
      (∀ i j a b, low ≤ i → i ≤ j → j ≤ high → rd arr i = some a → rd arr j = some b → a ≤ b) →
      (∃ j, low ≤ j ∧ j ≤ high ∧ rd arr j = some target) →
      ∃ r, binary_search arr low high target = some r ∧ low ≤ r ∧ r ≤ high ∧
        rd arr r = some target := by
  intro d
  induction d with
  | zero =>
    intro low high hd _ _ _ _ hocc
    obtain ⟨j, h1, h2, _⟩ := hocc
    omega
  | succ d ih =>
    intro low high hd h0 hlen hmax hmono hocc
    obtain ⟨j, hj1, hj2, hj⟩ := hocc
    have h : low ≤ high := by omega
    have hm := midpoint_bounds low high h
    obtain ⟨hf, v, hv⟩ := binary_search_probe arr low high h h0 hlen hmax
    rw [binary_search_step arr low high target v h hf hv]
    by_cases hvt : v = target
    · rw [if_pos hvt]
      exact ⟨_, rfl, hm.1, hm.2, by rw [hv, hvt]⟩
    · rw [if_neg hvt]
      by_cases hlt : v < target
      · have hjm : midpoint low high < j := by
          by_contra hc
          have := hmono j (midpoint low high) target v hj1 (by omega) hm.2 hj hv
          omega
        have hf1 : fits (midpoint low high + 1) := by
          simp only [fits, INT_MIN, INT_MAX] at *
          omega
        rw [if_pos hlt, if_pos hf1]
        obtain ⟨r, hr, h1, h2, h3⟩ := ih (midpoint low high + 1) high (by omega) (by omega)
          hlen hmax
          (fun i j a b hi hij hjh => hmono i j a b (by omega) hij hjh)
          ⟨j, by omega, hj2, hj⟩
        exact ⟨r, hr, by omega, h2, h3⟩
      · have hjm : j < midpoint low high := by
          by_contra hc
          have := hmono (midpoint low high) j v target hm.1 (by omega) hj2 hv hj
          omega
        have hf1 : fits (midpoint low high - 1) := by
          simp only [fits, INT_MIN, INT_MAX] at *
          omega
        rw [if_neg hlt, if_pos hf1]
        obtain ⟨r, hr, h1, h2, h3⟩ := ih low (midpoint low high - 1) (by omega) h0
          (by omega) (by omega)
          (fun i j a b hi hij hjh => hmono i j a b hi hij (by omega))
          ⟨j, hj1, by omega, hj⟩
        exact ⟨r, hr, h1, by omega, h3⟩

/-! ## Cells by position -/

theorem getD_set_of_lt (arr : List Int) (i k : Nat) (a : Int) (h : i < arr.length) :
    (arr.set i a).getD k 0 = if i = k then a else arr.getD k 0 := by
  simp only [List.getD_eq_getElem?_getD, List.getElem?_set, h, if_true]
  split <;> rfl

theorem rd_getD (arr : List Int) (k : Nat) (h : k < arr.length) :
    rd arr (k : Int) = some (arr.getD k 0) := by
  rw [rd_natCast, List.getElem?_eq_getElem h, List.getD_eq_getElem arr 0 h]

/-- Exchanging two neighbouring cells rearranges the array. -/
theorem swap_adjacent_perm : ∀ (arr : List Int) (j : Nat), j + 1 < arr.length →
    ((arr.set j (arr.getD (j + 1) 0)).set (j + 1) (arr.getD j 0)).Perm arr
  | [], _, h => by simp at h
  | [_], _, h => by simp at h
  | x :: y :: t, 0, _ => by
    simp only [List.set_cons_zero, List.set_cons_succ, List.getD_cons_zero, List.getD_cons_succ]
    exact List.Perm.swap x y t
  | x :: y :: t, j + 1, h => by
    simp only [List.set_cons_succ, List.getD_cons_succ]
    exact (swap_adjacent_perm (y :: t) j (by simpa using h)).cons x

/-! ## `bubble_sort`: one iteration of the inner loop -/

theorem bubble_sort_inner_exit (arr : List Int) (n i j : Int)
    (hf : fits (n - i) ∧ fits (n - i - 1)) (h : ¬ j < n - i - 1) :
    bubble_sort_inner arr n i j = some arr := by
  rw [bubble_sort_inner, if_pos hf, dif_neg h]

theorem bubble_sort_inner_keep (arr : List Int) (n i j a b : Int)
    (hf : fits (n - i) ∧ fits (n - i - 1)) (h : j < n - i - 1) (hj : fits (j + 1))
    (ha : rd arr j = some a) (hb : rd arr (j + 1) = some b) (hab : ¬ a > b) :
    bubble_sort_inner arr n i j = bubble_sort_inner arr n i (j + 1) := by
  rw [bubble_sort_inner, if_pos hf, dif_pos h, if_pos hj, bind_of_eq_some _ ha,
    bind_of_eq_some _ hb, if_neg hab]

theorem bubble_sort_inner_swap (arr arr1 arr2 : List Int) (n i j a b : Int)
    (hf : fits (n - i) ∧ fits (n - i - 1)) (h : j < n - i - 1) (hj : fits (j + 1))
    (ha : rd arr j = some a) (hb : rd arr (j + 1) = some b) (hab : a > b)
    (h1 : wr arr j b = some arr1) (h2 : wr arr1 (j + 1) a = some arr2) :
    bubble_sort_inner arr n i j = bubble_sort_inner arr2 n i (j + 1) := by
  rw [bubble_sort_inner, if_pos hf, dif_pos h, if_pos hj, bind_of_eq_some _ ha,
    bind_of_eq_some _ hb, if_pos hab, bind_of_eq_some _ h1, bind_of_eq_some _ h2]

/-! ## `bubble_sort`: a whole pass -/

/-- A pass over the cells `0 .. m` started at `j`: the array is rearranged, the
cells after `m` keep their content, a bound on the cells `0 .. m` is kept, and
when cell `j` dominates the cells before it, cell `m` ends up dominating the
cells `0 .. m`. -/
theorem bubble_sort_inner_spec (n i : Int) (m : Nat) (hm : n - i - 1 = (m : Int))
    (hf : fits (n - i) ∧ fits (n - i - 1)) :
    ∀ (d : Nat) (arr : List Int) (j : Nat), m - j ≤ d → j ≤ m → m < arr.length →
      ∃ out, bubble_sort_inner arr n i (j : Int) = some out ∧ out.length = arr.length ∧
        out.Perm arr ∧
        (∀ k, m < k → out.getD k 0 = arr.getD k 0) ∧
        (∀ B, (∀ k, k ≤ m → arr.getD k 0 ≤ B) → ∀ k, k ≤ m → out.getD k 0 ≤ B) ∧
        ((∀ k, k ≤ j → arr.getD k 0 ≤ arr.getD j 0) →
          ∀ k, k ≤ m → out.getD k 0 ≤ out.getD m 0) := by
  intro d
  induction d with
  | zero =>
    intro arr j hd hjm _
    have hj : j = m := by omega
    subst hj
    exact ⟨arr, bubble_sort_inner_exit arr n i _ hf (by omega), rfl, List.Perm.refl _,
      fun _ _ => rfl, fun _ hB => hB, fun h => h⟩
  | succ d ih =>
    intro arr j hd hjm hlen
    by_cases hj : j = m
    · subst hj
      exact ⟨arr, bubble_sort_inner_exit arr n i _ hf (by omega), rfl, List.Perm.refl _,
        fun _ _ => rfl, fun _ hB => hB, fun h => h⟩
    · have hlt : (j : Int) < n - i - 1 := by omega
      have hj1 : fits ((j : Int) + 1) := by
        simp only [fits, INT_MIN, INT_MAX] at *
        omega
      have hjl : j < arr.length := by omega
      have hjl1 : j + 1 < arr.length := by omega
      have ha := rd_getD arr j hjl
      have hb : rd arr ((j : Int) + 1) = some (arr.getD (j + 1) 0) := by
        rw [show (j : Int) + 1 = ((j + 1 : Nat) : Int) by push_cast; rfl]
        exact rd_getD arr (j + 1) hjl1
      by_cases hab : arr.getD j 0 > arr.getD (j + 1) 0
      · have h1 := wr_natCast arr j (arr.getD (j + 1) 0) hjl
        have h2 : wr (arr.set j (arr.getD (j + 1) 0)) ((j : Int) + 1) (arr.getD j 0) =
            some ((arr.set j (arr.getD (j + 1) 0)).set (j + 1) (arr.getD j 0)) := by
          rw [show (j : Int) + 1 = ((j + 1 : Nat) : Int) by push_cast; rfl]
          exact wr_natCast _ (j + 1) _ (by simpa using hjl1)
        rw [bubble_sort_inner_swap arr _ _ n i j _ _ hf hlt hj1 ha hb hab h1 h2,
          show (j : Int) + 1 = ((j + 1 : Nat) : Int) by push_cast; rfl]
        have hg : ∀ k, ((arr.set j (arr.getD (j + 1) 0)).set (j + 1) (arr.getD j 0)).getD k 0 =
            if j + 1 = k then arr.getD j 0 else if j = k then arr.getD (j + 1) 0
              else arr.getD k 0 := by
          intro k
          rw [getD_set_of_lt _ _ _ _ (by simpa using hjl1), getD_set_of_lt _ _ _ _ hjl]
        obtain ⟨out, hout, hl, hp, hk, hB, hdom⟩ := ih
          ((arr.set j (arr.getD (j + 1) 0)).set (j + 1) (arr.getD j 0)) (j + 1) (by omega)
          (by omega) (by simpa using hlen)
        refine ⟨out, hout, by simpa using hl, hp.trans (swap_adjacent_perm arr j hjl1), ?_, ?_, ?_⟩
        · intro k hk1
          rw [hk k hk1, hg k, if_neg (by omega), if_neg (by omega)]
        · intro B hb1 k hk1
          refine hB B (fun k2 hk2 => ?_) k hk1
          rw [hg k2]
          split
          · exact hb1 j (by omega)
          · split
            · exact hb1 (j + 1) (by omega)
            · exact hb1 k2 hk2
        · intro hd1
          refine hdom (fun k2 hk2 => ?_)
          rw [hg k2, hg (j + 1), if_pos rfl]
          split
          · exact le_refl _
          · split
            · exact le_of_lt hab
            · exact hd1 k2 (by omega)
      · rw [bubble_sort_inner_keep arr n i j _ _ hf hlt hj1 ha hb hab,
          show (j : Int) + 1 = ((j + 1 : Nat) : Int) by push_cast; rfl]
        obtain ⟨out, hout, hl, hp, hk, hB, hdom⟩ := ih arr (j + 1) (by omega) (by omega) hlen
        refine ⟨out, hout, hl, hp, hk, hB, fun hd1 => hdom (fun k2 hk2 => ?_)⟩
        by_cases hk3 : k2 = j + 1
        · rw [hk3]
        · exact le_trans (hd1 k2 (by omega)) (not_lt.mp hab)

/-! ## `bubble_sort`: the passes -/

theorem bubble_sort_outer_exit (arr : List Int) (n i : Int) (hf : fits (n - 1))
    (h : ¬ i < n - 1) : bubble_sort_outer arr n i = some arr := by
  rw [bubble_sort_outer, if_pos hf, dif_neg h]

theorem bubble_sort_outer_step (arr arr1 : List Int) (n i : Int) (hf : fits (n - 1))
    (h : i < n - 1) (hin : bubble_sort_inner arr n i 0 = some arr1) (hi : fits (i + 1)) :
    bubble_sort_outer arr n i = bubble_sort_outer arr1 n (i + 1) := by
  rw [bubble_sort_outer, if_pos hf, dif_pos h, hin]
  exact if_pos hi

/-- The passes from pass `i` on, started in a state where each of the last `i`
cells of the slice dominates every cell before it. -/
theorem bubble_sort_outer_spec (n : Nat) (hn : (n : Int) ≤ INT_MAX) :
    ∀ (d : Nat) (arr : List Int) (i : Nat), n - 1 - i ≤ d → i + 1 ≤ n → n ≤ arr.length →
      (∀ k k2, n - i ≤ k → k < n → k2 < k → arr.getD k2 0 ≤ arr.getD k 0) →
      ∃ out, bubble_sort_outer arr (n : Int) (i : Int) = some out ∧
        out.length = arr.length ∧ out.Perm arr ∧
        (∀ k, n ≤ k → out.getD k 0 = arr.getD k 0) ∧
        (∀ k k2, k < n → k2 < k → out.getD k2 0 ≤ out.getD k 0) := by
  have hf : fits ((n : Int) - 1) := by
    simp only [fits, INT_MIN, INT_MAX] at *
    omega
  intro d
  induction d with
  | zero =>
    intro arr i hd hi _ hQ
    refine ⟨arr, bubble_sort_outer_exit arr _ _ hf (by omega), rfl, List.Perm.refl _,
      fun _ _ => rfl, fun k k2 hk hk2 => hQ k k2 (by omega) hk hk2⟩
  | succ d ih =>
    intro arr i hd hi hlen hQ
    by_cases hlast : i + 1 = n
    · refine ⟨arr, bubble_sort_outer_exit arr _ _ hf (by omega), rfl, List.Perm.refl _,
        fun _ _ => rfl, fun k k2 hk hk2 => hQ k k2 (by omega) hk hk2⟩
    · have hfi : fits ((n : Int) - (i : Int)) ∧ fits ((n : Int) - (i : Int) - 1) := by
        simp only [fits, INT_MIN, INT_MAX] at *
        omega
      have hfi1 : fits ((i : Int) + 1) := by
        simp only [fits, INT_MIN, INT_MAX] at *
        omega
      obtain ⟨out1, hout1, hl1, hp1, hk1, hB1, hdom1⟩ :=
        bubble_sort_inner_spec (n : Int) (i : Int) (n - i - 1) (by omega) hfi (n - i - 1) arr 0
          (by omega) (by omega) (by omega)
      have hdom := hdom1 (fun k hk => by rw [show k = 0 by omega])
      rw [bubble_sort_outer_step arr out1 _ _ hf (by omega) hout1 hfi1,
        show (i : Int) + 1 = ((i + 1 : Nat) : Int) by push_cast; rfl]
      obtain ⟨out, hout, hl, hp, hk, hsorted⟩ := ih out1 (i + 1) (by omega) (by omega)
        (by omega) (fun k k2 h1 h2 h3 => by
          by_cases hkm : k = n - i - 1
          · rw [hkm]
            exact hdom k2 (by omega)
          · rw [hk1 k (by omega)]
            by_cases hk2 : k2 ≤ n - i - 1
            · exact hB1 (arr.getD k 0) (fun k3 hk3 => hQ k k3 (by omega) h2 (by omega)) k2 hk2
            · rw [hk1 k2 (by omega)]
              exact hQ k k2 (by omega) h2 h3)
      exact ⟨out, hout, by omega, hp.trans hp1,
        fun k hkn => by rw [hk k hkn, hk1 k (by omega)], hsorted⟩

/-- The whole of `bubble_sort` on a slice of `n` cells: the array is rearranged,
the cells from `n` on keep their content, and the slice is in order. -/
theorem bubble_sort_spec (arr : List Int) (n : Nat) (hlen : n ≤ arr.length)
    (hn : (n : Int) ≤ INT_MAX) :
    ∃ out, bubble_sort arr (n : Int) = some out ∧ out.length = arr.length ∧ out.Perm arr ∧
      (∀ k, n ≤ k → out.getD k 0 = arr.getD k 0) ∧
      (∀ k k2, k < n → k2 < k → out.getD k2 0 ≤ out.getD k 0) := by
  rcases Nat.eq_zero_or_pos n with h0 | hpos
  · subst h0
    refine ⟨arr, ?_, rfl, List.Perm.refl _, fun _ _ => rfl, fun k k2 hk => by omega⟩
    exact bubble_sort_outer_exit arr _ _ (by simp [fits, INT_MIN, INT_MAX]) (by simp)
  · exact bubble_sort_outer_spec n hn (n - 1) arr 0 (by omega) (by omega) hlen
      (fun k k2 h1 h2 => by omega)

/-! ## Properties of `linear_search` -/

/-- C3: when the target occurs among `arr[0..n-1]`, `linear_search(arr, n, target)`
returns the smallest index `i` with `arr[i] == target`: `0 <= i < n`, the cell
holds the target and no cell before it does. -/
theorem linear_search_first_match (arr : List Int) (n target : Int)
    (hlen : n ≤ arr.length) (hmax : n ≤ INT_MAX)
    (hocc : ∃ j, 0 ≤ j ∧ j < n ∧ rd arr j = some target) :
    ∃ i, linear_search arr n target = some i ∧ 0 ≤ i ∧ i < n ∧ rd arr i = some target ∧
      ∀ j, 0 ≤ j → j < i → rd arr j ≠ some target := by
  obtain ⟨j, hj0, hjn, hj⟩ := hocc
  rcases linear_search_loop_spec arr n target hlen hmax (n - 0).toNat 0 rfl (le_refl _)
    (by omega) with ⟨r, hr, h1, h2, h3, h4⟩ | ⟨_, hnone⟩
  · exact ⟨r, hr, h1, h2, h3, h4⟩
  · exact absurd hj (hnone j hj0 hjn)

theorem linear_search_first_match_witness :
    ((3 : Int) ≤ ([5, 7, 7].length : Int) ∧ (3 : Int) ≤ INT_MAX ∧
      ∃ j, 0 ≤ j ∧ j < (3 : Int) ∧ rd [5, 7, 7] j = some 7) ∧
    ∃ i, linear_search [5, 7, 7] 3 7 = some i ∧ 0 ≤ i ∧ i < 3 ∧ rd [5, 7, 7] i = some 7 ∧
      ∀ j, 0 ≤ j → j < i → rd [5, 7, 7] j ≠ some 7 :=
  ⟨⟨by decide, by decide, 2, by decide, by decide, by decide⟩,
    linear_search_first_match [5, 7, 7] 3 7 (by decide) (by decide)
      ⟨2, by decide, by decide, by decide⟩⟩

/-- C4: `linear_search(arr, n, target)` returns a value, and that value is the
sentinel `-1` if and only if no cell of `arr[0..n-1]` equals the target; in
particular it is `-1` for `n = 0`. -/
theorem linear_search_sentinel_iff (arr : List Int) (n target : Int) (h0 : 0 ≤ n)
    (hlen : n ≤ arr.length) (hmax : n ≤ INT_MAX) :
    (∃ r, linear_search arr n target = some r) ∧
    (linear_search arr n target = some (-1) ↔
      ∀ j, 0 ≤ j → j < n → rd arr j ≠ some target) ∧
    (n = 0 → linear_search arr n target = some (-1)) := by
  rcases linear_search_loop_spec arr n target hlen hmax (n - 0).toNat 0 rfl (le_refl _) h0
    with ⟨r, hr, h1, h2, h3, _⟩ | ⟨hr, hnone⟩
  · have hr2 : linear_search arr n target = some r := hr
    refine ⟨⟨r, hr2⟩, ⟨fun h => ?_, fun h => absurd h3 (h r h1 h2)⟩, fun hn => by omega⟩
    rw [hr2] at h
    have := Option.some.inj h
    omega
  · have hr2 : linear_search arr n target = some (-1) := hr
    exact ⟨⟨-1, hr2⟩, ⟨fun _ => hnone, fun _ => hr2⟩, fun _ => hr2⟩

theorem linear_search_sentinel_iff_witness :
    ((0 : Int) ≤ 2 ∧ (2 : Int) ≤ ([4, 6].length : Int) ∧ (2 : Int) ≤ INT_MAX) ∧
    (∃ r, linear_search [4, 6] 2 5 = some r) ∧
    (linear_search [4, 6] 2 5 = some (-1) ↔
      ∀ j, 0 ≤ j → j < (2 : Int) → rd [4, 6] j ≠ some 5) ∧
    ((2 : Int) = 0 → linear_search [4, 6] 2 5 = some (-1)) :=
  ⟨⟨by decide, by decide, by decide⟩,
    linear_search_sentinel_iff [4, 6] 2 5 (by decide) (by decide) (by decide)⟩

/-- C10 (as stated, refuted): for `N = 5` and the array `[4, 1, 3, 2, 4]` of
integers in `[0, 1000000)`, the worst-case call `linear_search(arr, 5, arr[4])`
returns `0`, not `N - 1 = 4`, because the last value also stands at index 0. -/
theorem linear_search_worst_case_counterexample :
    (1 : Int) ≤ 5 ∧ ([4, 1, 3, 2, 4].length : Int) = 5 ∧
    (∀ x ∈ [4, 1, 3, 2, 4], (0 : Int) ≤ x ∧ x < 1000000) ∧
    rd [4, 1, 3, 2, 4] (5 - 1) = some 4 ∧
    linear_search [4, 1, 3, 2, 4] 5 4 = some 0 ∧
    linear_search [4, 1, 3, 2, 4] 5 4 ≠ some (5 - 1) := by
  have h : linear_search [4, 1, 3, 2, 4] 5 4 = some 0 := by
    rw [linear_search, linear_search_loop, dif_pos (by decide)]
    rfl
  refine ⟨by decide, by decide, by decide, by decide, h, ?_⟩
  rw [h]
  decide

/-- C10 (amended): for every `N >= 1` and every array of `N` integers (whatever
their range), `linear_search(arr, N, arr[N-1])` returns the smallest index `r`
holding the value `arr[N-1]`, with `0 <= r <= N-1`; it returns exactly `N-1` if
and only if that value does not occur at an index below `N-1`. -/
theorem linear_search_worst_case (arr : List Int) (N : Int) (h1 : 1 ≤ N)
    (hlen : N ≤ arr.length) (hmax : N ≤ INT_MAX) :
    ∃ t r, rd arr (N - 1) = some t ∧ linear_search arr N t = some r ∧
      0 ≤ r ∧ r ≤ N - 1 ∧ rd arr r = some t ∧
      (∀ j, 0 ≤ j → j < r → rd arr j ≠ some t) ∧
      (r = N - 1 ↔ ∀ j, 0 ≤ j → j < N - 1 → rd arr j ≠ some t) := by
  obtain ⟨t, ht⟩ := rd_some_of_lt arr (N - 1) (by omega) (by omega)
  rcases linear_search_loop_spec arr N t hlen hmax (N - 0).toNat 0 rfl (le_refl _)
    (by omega) with ⟨r, hr, h2, h3, h4, h5⟩ | ⟨_, hnone⟩
  · refine ⟨t, r, ht, hr, h2, by omega, h4, h5, fun h j hj0 hj1 => h5 j hj0 (by omega),
      fun h => ?_⟩
    by_contra hne
    exact h r h2 (by omega) h4
  · exact absurd ht (hnone (N - 1) (by omega) (by omega))

theorem linear_search_worst_case_witness :
    ((1 : Int) ≤ 5 ∧ (5 : Int) ≤ ([4, 1, 3, 2, 9].length : Int) ∧ (5 : Int) ≤ INT_MAX) ∧
    ∃ t r, rd [4, 1, 3, 2, 9] (5 - 1) = some t ∧ linear_search [4, 1, 3, 2, 9] 5 t = some r ∧
      0 ≤ r ∧ r ≤ 5 - 1 ∧ rd [4, 1, 3, 2, 9] r = some t ∧
      (∀ j, 0 ≤ j → j < r → rd [4, 1, 3, 2, 9] j ≠ some t) ∧
      (r = 5 - 1 ↔ ∀ j, 0 ≤ j → j < (5 : Int) - 1 → rd [4, 1, 3, 2, 9] j ≠ some t) :=
  ⟨⟨by decide, by decide, by decide⟩,
    linear_search_worst_case [4, 1, 3, 2, 9] 5 (by decide) (by decide) (by decide)⟩

/-! ## Properties of `reverse_array` -/

/-- C9: after `reverse_array(arr, n)` every index `i` with `0 <= i < n` holds the
original content of index `n-1-i`; for odd `n` the middle cell `(n-1)/2` is
unchanged; the cells at indices `>= n` are unchanged. -/
theorem reverse_array_mirror (arr : List Int) (n : Int) (h0 : 0 ≤ n)
    (hlen : n ≤ arr.length) (hmax : n ≤ INT_MAX) :
    ∃ out, reverse_array arr n = some out ∧ out.length = arr.length ∧
      (∀ i, 0 ≤ i → i < n → rd out i = rd arr (n - 1 - i)) ∧
      (n % 2 = 1 → rd out ((n - 1) / 2) = rd arr ((n - 1) / 2)) ∧
      (∀ i, n ≤ i → rd out i = rd arr i) := by
  obtain ⟨m, rfl⟩ := Int.eq_ofNat_of_zero_le h0
  obtain ⟨out, hout, hl, hk⟩ := reverse_array_spec arr m (by omega) hmax
  have hmir : ∀ i : Int, 0 ≤ i → i < (m : Int) → rd out i = rd arr ((m : Int) - 1 - i) := by
    intro i hi0 hi1
    obtain ⟨k, rfl⟩ := Int.eq_ofNat_of_zero_le hi0
    rw [show (m : Int) - 1 - (k : Int) = ((m - 1 - k : Nat) : Int) by omega, rd_natCast,
      rd_natCast, hk k, if_pos (by omega)]
  refine ⟨out, hout, hl, hmir, fun hodd => ?_, fun i hi => ?_⟩
  · rw [hmir _ (by omega) (by omega)]
    congr 1
    omega
  · obtain ⟨k, rfl⟩ := Int.eq_ofNat_of_zero_le (show 0 ≤ i by omega)
    rw [rd_natCast, rd_natCast, hk k, if_neg (by omega)]

theorem reverse_array_mirror_witness :
    ((0 : Int) ≤ 3 ∧ (3 : Int) ≤ ([1, 2, 3, 4].length : Int) ∧ (3 : Int) ≤ INT_MAX) ∧
    ∃ out, reverse_array [1, 2, 3, 4] 3 = some out ∧ out.length = [1, 2, 3, 4].length ∧
      (∀ i, 0 ≤ i → i < (3 : Int) → rd out i = rd [1, 2, 3, 4] (3 - 1 - i)) ∧
      ((3 : Int) % 2 = 1 → rd out ((3 - 1) / 2) = rd [1, 2, 3, 4] ((3 - 1) / 2)) ∧
      (∀ i, (3 : Int) ≤ i → rd out i = rd [1, 2, 3, 4] i) :=
  ⟨⟨by decide, by decide, by decide⟩,
    reverse_array_mirror [1, 2, 3, 4] 3 (by decide) (by decide) (by decide)⟩

/-- C8: reversal is an involution: `reverse_array(arr, n)` applied twice returns
the array it started from, position by position (on the first `n` cells and
beyond). -/
theorem reverse_array_involution (arr : List Int) (n : Int) (h0 : 0 ≤ n)
    (hlen : n ≤ arr.length) (hmax : n ≤ INT_MAX) :
    ∃ out1 out2, reverse_array arr n = some out1 ∧ reverse_array out1 n = some out2 ∧
      (∀ i, 0 ≤ i → i < n → rd out2 i = rd arr i) ∧ out2 = arr := by
  obtain ⟨m, rfl⟩ := Int.eq_ofNat_of_zero_le h0
  obtain ⟨out1, hout1, hl1, hk1⟩ := reverse_array_spec arr m (by omega) hmax
  obtain ⟨out2, hout2, _, hk2⟩ := reverse_array_spec out1 m (by omega) hmax
  have heq : out2 = arr := by
    apply List.ext_getElem?
    intro k
    rw [hk2 k]
    by_cases h : k < m
    · rw [if_pos h, hk1 (m - 1 - k), if_pos (by omega), show m - 1 - (m - 1 - k) = k by omega]
    · rw [if_neg h, hk1 k, if_neg h]
  exact ⟨out1, out2, hout1, hout2, fun i _ _ => by rw [heq], heq⟩

theorem reverse_array_involution_witness :
    ((0 : Int) ≤ 3 ∧ (3 : Int) ≤ ([1, 2, 3, 4].length : Int) ∧ (3 : Int) ≤ INT_MAX) ∧
    ∃ out1 out2, reverse_array [1, 2, 3, 4] 3 = some out1 ∧
      reverse_array out1 3 = some out2 ∧
      (∀ i, 0 ≤ i → i < (3 : Int) → rd out2 i = rd [1, 2, 3, 4] i) ∧ out2 = [1, 2, 3, 4] :=
  ⟨⟨by decide, by decide, by decide⟩,
    reverse_array_involution [1, 2, 3, 4] 3 (by decide) (by decide) (by decide)⟩

/-! ## Properties of `bubble_sort` -/

/-- Arrays of one length whose cells agree from `n` on have the same tail from `n`. -/
theorem drop_eq_of_cells (out arr : List Int) (n : Nat) (hl : out.length = arr.length)
    (hk : ∀ k, n ≤ k → out.getD k 0 = arr.getD k 0) : out.drop n = arr.drop n := by
  apply List.ext_getElem?
  intro k
  rw [List.getElem?_drop, List.getElem?_drop]
  by_cases h : n + k < arr.length
  · rw [List.getElem?_eq_getElem h, List.getElem?_eq_getElem (by omega),
      ← List.getD_eq_getElem arr 0 h, ← List.getD_eq_getElem out 0 (by omega),
      hk (n + k) (by omega)]
  · rw [List.getElem?_eq_none (by omega), List.getElem?_eq_none (by omega)]

/-- Rearrangements of each other with the same tail from `n` have slices
`0 .. n-1` that are rearrangements of each other. -/
theorem take_perm_of_perm (out arr : List Int) (n : Nat) (hp : out.Perm arr)
    (hd : out.drop n = arr.drop n) : (out.take n).Perm (arr.take n) := by
  have h1 : (out.take n ++ out.drop n).Perm (arr.take n ++ arr.drop n) := by
    rw [List.take_append_drop, List.take_append_drop]
    exact hp
  rw [hd] at h1
  exact (List.perm_append_right_iff _).1 h1

/-- C1: after `bubble_sort(arr, n)` the first `n` cells are in non-decreasing
order: `arr[j] <= arr[j+1]` for every `j` with `0 <= j < n-1`. -/
theorem bubble_sort_sorted (arr : List Int) (n : Int) (h0 : 0 ≤ n)
    (hlen : n ≤ arr.length) (hmax : n ≤ INT_MAX) :
    ∃ out, bubble_sort arr n = some out ∧ out.length = arr.length ∧
      ∀ j, 0 ≤ j → j < n - 1 →
        ∃ a b, rd out j = some a ∧ rd out (j + 1) = some b ∧ a ≤ b := by
  obtain ⟨m, rfl⟩ := Int.eq_ofNat_of_zero_le h0
  obtain ⟨out, hout, hl, _, _, hs⟩ := bubble_sort_spec arr m (by omega) hmax
  refine ⟨out, hout, hl, fun j hj0 hj1 => ?_⟩
  obtain ⟨k, rfl⟩ := Int.eq_ofNat_of_zero_le hj0
  refine ⟨out.getD k 0, out.getD (k + 1) 0, rd_getD out k (by omega), ?_,
    hs (k + 1) k (by omega) (by omega)⟩
  rw [show (k : Int) + 1 = ((k + 1 : Nat) : Int) by push_cast; rfl]
  exact rd_getD out (k + 1) (by omega)

theorem bubble_sort_sorted_witness :
    ((0 : Int) ≤ 3 ∧ (3 : Int) ≤ ([3, 1, 2].length : Int) ∧ (3 : Int) ≤ INT_MAX) ∧
    ∃ out, bubble_sort [3, 1, 2] 3 = some out ∧ out.length = [3, 1, 2].length ∧
      ∀ j, 0 ≤ j → j < (3 : Int) - 1 →
        ∃ a b, rd out j = some a ∧ rd out (j + 1) = some b ∧ a ≤ b :=
  ⟨⟨by decide, by decide, by decide⟩,
    bubble_sort_sorted [3, 1, 2] 3 (by decide) (by decide) (by decide)⟩

/-- C2: the first `n` cells after `bubble_sort(arr, n)` are a permutation of the
first `n` cells before the call (equal as multisets), and the cells from `n` on
are untouched. -/
theorem bubble_sort_permutation (arr : List Int) (n : Int) (h0 : 0 ≤ n)
    (hlen : n ≤ arr.length) (hmax : n ≤ INT_MAX) :
    ∃ out, bubble_sort arr n = some out ∧
      (out.take n.toNat).Perm (arr.take n.toNat) ∧
      ((out.take n.toNat : List Int) : Multiset Int) = ((arr.take n.toNat : List Int) : Multiset Int) ∧
      out.drop n.toNat = arr.drop n.toNat := by
  obtain ⟨m, rfl⟩ := Int.eq_ofNat_of_zero_le h0
  obtain ⟨out, hout, hl, hp, hk, _⟩ := bubble_sort_spec arr m (by omega) hmax
  have hd := drop_eq_of_cells out arr m hl hk
  have ht := take_perm_of_perm out arr m hp hd
  exact ⟨out, hout, ht, Multiset.coe_eq_coe.2 ht, hd⟩

theorem bubble_sort_permutation_witness :
    ((0 : Int) ≤ 3 ∧ (3 : Int) ≤ ([3, 1, 2].length : Int) ∧ (3 : Int) ≤ INT_MAX) ∧
    ∃ out, bubble_sort [3, 1, 2] 3 = some out ∧
      (out.take (3 : Int).toNat).Perm ([3, 1, 2].take (3 : Int).toNat) ∧
      ((out.take (3 : Int).toNat : List Int) : Multiset Int) =
        (([3, 1, 2].take (3 : Int).toNat : List Int) : Multiset Int) ∧
      out.drop (3 : Int).toNat = [3, 1, 2].drop (3 : Int).toNat :=
  ⟨⟨by decide, by decide, by decide⟩,
    bubble_sort_permutation [3, 1, 2] 3 (by decide) (by decide) (by decide)⟩

/-! ## Properties of `binary_search` -/

/-- C5: for bounds `0 <= low <= high < length(arr)` over which the array is
sorted ascending, and a target that occurs in `arr[low..high]`,
`binary_search(arr, low, high, target)` returns an index `i` with
`low <= i <= high` and `arr[i] == target`, never `-1`. (That `low <= high`
follows from the occurrence of the target.) -/
theorem binary_search_finds (arr : List Int) (low high target : Int) (h0 : 0 ≤ low)
    (hlen : high < arr.length) (hmax : high ≤ INT_MAX)
    (hsorted : ∀ j a b, low ≤ j → j < high →
      rd arr j = some a → rd arr (j + 1) = some b → a ≤ b)
    (hocc : ∃ j, low ≤ j ∧ j ≤ high ∧ rd arr j = some target) :
    ∃ i, binary_search arr low high target = some i ∧ low ≤ i ∧ i ≤ high ∧
      rd arr i = some target ∧ i ≠ -1 := by
  have hmono : ∀ i j a b, low ≤ i → i ≤ j → j ≤ high →
      rd arr i = some a → rd arr j = some b → a ≤ b := by
    intro i j a b hi hij hj ha hb
    have he : i + ((j - i).toNat : Int) = j := by omega
    exact mono_of_adjacent arr low high h0 hlen hsorted (j - i).toNat i a b hi (by omega) ha
      (by rw [he]; exact hb)
  obtain ⟨r, hr, h1, h2, h3⟩ := binary_search_complete arr target (high - low + 1).toNat
    low high (le_refl _) h0 hlen hmax hmono hocc
  exact ⟨r, hr, h1, h2, h3, by omega⟩

theorem binary_search_finds_witness :
    ((0 : Int) ≤ 1 ∧ (3 : Int) < ([9, 2, 4, 4, 0].length : Int) ∧
      (3 : Int) ≤ INT_MAX ∧
      (∀ j a b, (1 : Int) ≤ j → j < 3 →
        rd [9, 2, 4, 4, 0] j = some a → rd [9, 2, 4, 4, 0] (j + 1) = some b → a ≤ b) ∧
      ∃ j, (1 : Int) ≤ j ∧ j ≤ 3 ∧ rd [9, 2, 4, 4, 0] j = some 4) ∧
    ∃ i, binary_search [9, 2, 4, 4, 0] 1 3 4 = some i ∧ 1 ≤ i ∧ i ≤ 3 ∧
      rd [9, 2, 4, 4, 0] i = some 4 ∧ i ≠ -1 := by
  have hs : ∀ j a b, (1 : Int) ≤ j → j < 3 →
      rd [9, 2, 4, 4, 0] j = some a → rd [9, 2, 4, 4, 0] (j + 1) = some b → a ≤ b := by
    intro j a b h1 h2 ha hb
    have hj : j = 1 ∨ j = 2 := by omega
    rcases hj with rfl | rfl
    · have ea : a = 2 := (Option.some.inj ha).symm
      have eb : b = 4 := (Option.some.inj hb).symm
      omega
    · have ea : a = 4 := (Option.some.inj ha).symm
      have eb : b = 4 := (Option.some.inj hb).symm
      omega
  have ho : ∃ j, (1 : Int) ≤ j ∧ j ≤ 3 ∧ rd [9, 2, 4, 4, 0] j = some 4 :=
    ⟨3, by decide, by decide, by decide⟩
  exact ⟨⟨by decide, by decide, by decide, hs, ho⟩,
    binary_search_finds [9, 2, 4, 4, 0] 1 3 4 (by decide) (by decide) (by decide) hs ho⟩

/-- C6 (as stated, refuted): for an array of `2^31` zeros, bounds
`low = high = 2^31 - 1` (so `0 <= low` and `high < length(arr)`) and target `1`,
the probe `arr[mid] = 0 < 1` is followed by `low = mid + 1` with
`mid = 2^31 - 1`, which is not representable as `int`: the call has no defined
result, neither `-1` nor an index. (Were the overflow to wrap around, `low`
would become `-2^31`, `high - low` would overflow in turn, and the next probe
would read `arr[-2^31]`.) -/
theorem binary_search_counterexample :
    (0 : Int) ≤ 2147483647 ∧
    (2147483647 : Int) < ((List.replicate 2147483648 (0 : Int)).length : Int) ∧
    binary_search (List.replicate 2147483648 0) 2147483647 2147483647 1 = none := by
  have hmid : midpoint 2147483647 2147483647 = 2147483647 := by
    simp [midpoint]
  have hv : rd (List.replicate 2147483648 0) (midpoint 2147483647 2147483647) = some 0 := by
    rw [hmid, show (2147483647 : Int) = ((2147483647 : Nat) : Int) by rfl, rd_natCast,
      List.getElem?_replicate, if_pos (by omega)]
  refine ⟨by omega, by rw [List.length_replicate]; omega, ?_⟩
  rw [binary_search_step _ _ _ _ 0 (le_refl _) (by rw [hmid]; simp [fits, INT_MIN, INT_MAX]) hv,
    if_neg (by omega), if_pos (by omega), hmid, if_neg (by simp [fits, INT_MIN, INT_MAX])]

/-- C6 (amended): for every array (sorted or not), every bounds with `0 <= low`,
`high < length(arr)` and `high < INT_MAX` (every bound of an array whose length
is representable as `int`), and every target, `binary_search` returns a value
that is either `-1` or an index `i` with `low <= i <= high` and
`arr[i] == target`; so it is `-1` whenever the target does not occur in
`arr[low..high]`, and whenever `low > high`. -/
theorem binary_search_result (arr : List Int) (low high target : Int) (h0 : 0 ≤ low)
    (hlen : high < arr.length) (hmax : high < INT_MAX) :
    ∃ r, binary_search arr low high target = some r ∧
      (r = -1 ∨ (low ≤ r ∧ r ≤ high ∧ rd arr r = some target)) ∧
      ((∀ j, low ≤ j → j ≤ high → rd arr j ≠ some target) → r = -1) ∧
      (low > high → r = -1) := by
  obtain ⟨r, hr, hres⟩ := binary_search_sound arr target (high - low + 1).toNat low high
    (le_refl _) h0 hlen hmax
  refine ⟨r, hr, hres, fun hno => ?_, fun hgt => ?_⟩
  · rcases hres with h | ⟨h1, h2, h3⟩
    · exact h
    · exact absurd h3 (hno r h1 h2)
  · rcases hres with h | ⟨h1, h2, _⟩
    · exact h
    · omega

theorem binary_search_result_witness :
    ((0 : Int) ≤ 0 ∧ (2 : Int) < ([5, 1, 3].length : Int) ∧ (2 : Int) < INT_MAX) ∧
    ∃ r, binary_search [5, 1, 3] 0 2 3 = some r ∧
      (r = -1 ∨ (0 ≤ r ∧ r ≤ 2 ∧ rd [5, 1, 3] r = some 3)) ∧
      ((∀ j, (0 : Int) ≤ j → j ≤ 2 → rd [5, 1, 3] j ≠ some 3) → r = -1) ∧
      ((0 : Int) > 2 → r = -1) :=
  ⟨⟨by decide, by decide, by decide⟩,
    binary_search_result [5, 1, 3] 0 2 3 (by decide) (by decide) (by decide)⟩

/-! ## `bubble_sort` followed by `binary_search` for the last element -/

theorem getD_mem_take (l : List Int) (m k : Nat) (hk : k < m) (hl : k < l.length) :
    l.getD k 0 ∈ l.take m := by
  rw [List.mem_take_iff_getElem]
  exact ⟨k, by simp only [lt_inf_iff]; exact ⟨hk, hl⟩, (List.getD_eq_getElem l 0 hl).symm⟩

theorem exists_of_mem_take (l : List Int) (m : Nat) (x : Int) (h : x ∈ l.take m) :
    ∃ k, k < m ∧ k < l.length ∧ l.getD k 0 = x := by
  rw [List.mem_take_iff_getElem] at h
  obtain ⟨k, hk, hx⟩ := h
  have hk2 : k < m ∧ k < l.length := by simpa only [lt_inf_iff] using hk
  exact ⟨k, hk2.1, hk2.2, by rw [List.getD_eq_getElem l 0 hk2.2]; exact hx⟩

/-- C7: let `s` be the array after `bubble_sort(arr, n)`, `n >= 1`, and
`target = s[n-1]`. Then `target` is the maximum of the original `n` cells (it is
one of them and none is larger), and `binary_search(s, 0, n-1, target)` returns
an index `r` with `0 <= r <= n-1` and `s[r] == target`. -/
theorem binary_search_max_after_sort (arr : List Int) (n : Int) (h1 : 1 ≤ n)
    (hlen : n ≤ arr.length) (hmax : n ≤ INT_MAX) :
    ∃ s target r, bubble_sort arr n = some s ∧ rd s (n - 1) = some target ∧
      (∀ j, 0 ≤ j → j < n → ∃ v, rd arr j = some v ∧ v ≤ target) ∧
      (∃ j, 0 ≤ j ∧ j < n ∧ rd arr j = some target) ∧
      binary_search s 0 (n - 1) target = some r ∧ 0 ≤ r ∧ r ≤ n - 1 ∧
      rd s r = some target := by
  obtain ⟨m, rfl⟩ := Int.eq_ofNat_of_zero_le (show 0 ≤ n by omega)
  have hm : 1 ≤ m := by omega
  have hml : m ≤ arr.length := by omega
  obtain ⟨s, hs, hl, hp, hk, hsorted⟩ := bubble_sort_spec arr m hml hmax
  have ht := take_perm_of_perm s arr m hp (drop_eq_of_cells s arr m hl hk)
  have hcast : (m : Int) - 1 = ((m - 1 : Nat) : Int) := by omega
  have hlast : rd s ((m : Int) - 1) = some (s.getD (m - 1) 0) := by
    rw [hcast]
    exact rd_getD s (m - 1) (by omega)
  have hle : ∀ k, k < m → s.getD k 0 ≤ s.getD (m - 1) 0 := by
    intro k hk1
    by_cases hkm : k = m - 1
    · rw [hkm]
    · exact hsorted (m - 1) k (by omega) (by omega)
  have hmono : ∀ i j a b : Int, 0 ≤ i → i ≤ j → j ≤ (m : Int) - 1 →
      rd s i = some a → rd s j = some b → a ≤ b := by
    intro i j a b hi hij hj ha hb
    obtain ⟨ki, rfl⟩ := Int.eq_ofNat_of_zero_le hi
    obtain ⟨kj, rfl⟩ := Int.eq_ofNat_of_zero_le (show 0 ≤ j by omega)
    rw [rd_getD s ki (by omega)] at ha
    rw [rd_getD s kj (by omega)] at hb
    rw [← Option.some.inj ha, ← Option.some.inj hb]
    by_cases hkk : ki = kj
    · rw [hkk]
    · exact hsorted kj ki (by omega) (by omega)
  obtain ⟨r, hr, hr0, hr1, hr2⟩ := binary_search_complete s (s.getD (m - 1) 0)
    (((m : Int) - 1) - 0 + 1).toNat 0 ((m : Int) - 1) (le_refl _) (le_refl _) (by omega)
    (by omega) hmono ⟨(m : Int) - 1, by omega, le_refl _, hlast⟩
  refine ⟨s, s.getD (m - 1) 0, r, hs, hlast, fun j hj0 hj1 => ?_, ?_, hr, hr0, hr1, hr2⟩
  · obtain ⟨k, rfl⟩ := Int.eq_ofNat_of_zero_le hj0
    refine ⟨arr.getD k 0, rd_getD arr k (by omega), ?_⟩
    obtain ⟨k2, hk2, _, hx⟩ := exists_of_mem_take s m _
      (ht.mem_iff.2 (getD_mem_take arr m k (by omega) (by omega)))
    rw [← hx]
    exact hle k2 hk2
  · obtain ⟨k, hk1, hk2, hx⟩ := exists_of_mem_take arr m _
      (ht.mem_iff.1 (getD_mem_take s m (m - 1) (by omega) (by omega)))
    exact ⟨(k : Int), by omega, by omega, by rw [rd_getD arr k hk2, hx]⟩

theorem binary_search_max_after_sort_witness :
    ((1 : Int) ≤ 4 ∧ (4 : Int) ≤ ([3, 8, 1, 8].length : Int) ∧ (4 : Int) ≤ INT_MAX) ∧
    ∃ s target r, bubble_sort [3, 8, 1, 8] 4 = some s ∧ rd s (4 - 1) = some target ∧
      (∀ j, 0 ≤ j → j < (4 : Int) → ∃ v, rd [3, 8, 1, 8] j = some v ∧ v ≤ target) ∧
      (∃ j, 0 ≤ j ∧ j < (4 : Int) ∧ rd [3, 8, 1, 8] j = some target) ∧
      binary_search s 0 (4 - 1) target = some r ∧ 0 ≤ r ∧ r ≤ 4 - 1 ∧
      rd s r = some target :=
  ⟨⟨by decide, by decide, by decide⟩,
    binary_search_max_after_sort [3, 8, 1, 8] 4 (by decide) (by decide) (by decide)⟩

/-! ## Concrete runs -/

theorem linear_search_run : linear_search [3, 1, 2] 3 2 = some 2 := by
  simp [linear_search, linear_search_loop, rd, fits, INT_MIN, INT_MAX]

theorem linear_search_run_absent : linear_search [3, 1, 2] 3 7 = some (-1) := by
  simp [linear_search, linear_search_loop, rd, fits, INT_MIN, INT_MAX]

theorem reverse_array_run : reverse_array [1, 2, 3, 4, 5] 5 = some [5, 4, 3, 2, 1] := by
  simp [reverse_array, reverse_array_loop, rd, wr, fits, INT_MIN, INT_MAX]

theorem binary_search_run : binary_search [1, 3, 5, 7] 0 3 7 = some 3 := by
  simp [binary_search, midpoint, Int.tdiv, rd, fits, INT_MIN, INT_MAX]

theorem binary_search_run_absent : binary_search [1, 3, 5, 7] 0 3 4 = some (-1) := by
  simp [binary_search, midpoint, Int.tdiv, rd, fits, INT_MIN, INT_MAX]

theorem bubble_sort_run : bubble_sort [3, 1, 2] 3 = some [1, 2, 3] := by
  simp [bubble_sort, bubble_sort_outer, bubble_sort_inner, rd, wr, fits, INT_MIN, INT_MAX]

theorem rd_outside : rd [1, 2] 2 = none ∧ rd [1, 2] (-1) = none := by
  simp [rd]

/-! ## The midpoint of `binary_search` -/

theorem wrap32_of_fits (x : Int) (h : fits x) : wrap32 x = x := by
  unfold wrap32
  simp only [fits, INT_MIN, INT_MAX] at h
  omega

/-- C15: for `0 <= low <= high <= 2^31 - 1` every intermediate of
`low + (high - low) / 2` lies in the 32-bit signed range (so wrapping arithmetic
leaves it unchanged), the result equals `floor((low + high) / 2)` over unbounded
integers, and `low <= mid <= high`. -/
theorem midpoint_no_overflow (low high : Int) (h0 : 0 ≤ low) (hlh : low ≤ high)
    (hmax : high ≤ INT_MAX) :
    fits (high - low) ∧ fits ((high - low).tdiv 2) ∧ fits (low + (high - low).tdiv 2) ∧
    midpoint32 low high = midpoint low high ∧
    midpoint low high = (low + high) / 2 ∧
    low ≤ midpoint low high ∧ midpoint low high ≤ high := by
  have hd : (high - low).tdiv 2 = (high - low) / 2 := Int.tdiv_eq_ediv (by omega) (by omega)
  have f1 : fits (high - low) := by
    simp only [fits, INT_MIN, INT_MAX] at *
    omega
  have f2 : fits ((high - low).tdiv 2) := by
    rw [hd]
    simp only [fits, INT_MIN, INT_MAX] at *
    omega
  have f3 : fits (low + (high - low).tdiv 2) := by
    rw [hd]
    simp only [fits, INT_MIN, INT_MAX] at *
    omega
  refine ⟨f1, f2, f3, ?_, ?_, ?_, ?_⟩
  · unfold midpoint32 midpoint
    rw [wrap32_of_fits _ f1, wrap32_of_fits _ f2, wrap32_of_fits _ f3]
  · unfold midpoint
    rw [hd]
    omega
  · exact (midpoint_bounds low high hlh).1
  · exact (midpoint_bounds low high hlh).2

theorem midpoint_no_overflow_witness :
    ((0 : Int) ≤ 2147483646 ∧ (2147483646 : Int) ≤ 2147483647 ∧
      (2147483647 : Int) ≤ INT_MAX) ∧
    fits (2147483647 - 2147483646) ∧ fits ((2147483647 - 2147483646 : Int).tdiv 2) ∧
    fits (2147483646 + (2147483647 - 2147483646 : Int).tdiv 2) ∧
    midpoint32 2147483646 2147483647 = midpoint 2147483646 2147483647 ∧
    midpoint 2147483646 2147483647 = (2147483646 + 2147483647) / 2 ∧
    2147483646 ≤ midpoint 2147483646 2147483647 ∧
    midpoint 2147483646 2147483647 ≤ 2147483647 :=
  ⟨⟨by decide, by decide, by decide⟩,
    midpoint_no_overflow 2147483646 2147483647 (by decide) (by decide) (by decide)⟩

/-- The naive expression `(low + high) / 2` wraps around at bounds where
`low + (high - low) / 2` does not. -/
theorem naive_midpoint32_wraps :
    naive_midpoint32 2147483646 2147483647 = -1 ∧
    midpoint32 2147483646 2147483647 = 2147483646 := by
  decide

/-! ## `binary_search`: the record of iterations -/

theorem binary_search_trace_exit (arr : List Int) (low high target : Int)
    (h : ¬ low ≤ high) : binary_search_trace arr low high target = some (-1, []) := by
  rw [binary_search_trace, dif_neg h]

theorem binary_search_trace_step (arr : List Int) (low high target v : Int) (h : low ≤ high)
    (hf : fits (high - low) ∧ fits (midpoint low high))
    (hv : rd arr (midpoint low high) = some v) :
    binary_search_trace arr low high target =
      if v = target then some (midpoint low high, [⟨low, high, midpoint low high⟩])
      else if v < target then
        if fits (midpoint low high + 1) then
          (binary_search_trace arr (midpoint low high + 1) high target).map
            (fun r => (r.1, ⟨low, high, midpoint low high⟩ :: r.2))
        else none
      else
        if fits (midpoint low high - 1) then
          (binary_search_trace arr low (midpoint low high - 1) target).map
            (fun r => (r.1, ⟨low, high, midpoint low high⟩ :: r.2))
        else none := by
  rw [binary_search_trace, dif_pos h, if_pos hf, hv]

/-- The run of `binary_search` inside an array whose bounds are representable:
it returns, the record erases to the value of `binary_search`, every probe lies
inside the bounds of the call, and successive iterations narrow the range. -/
theorem binary_search_trace_spec (arr : List Int) (target : Int) :
    ∀ (d : Nat) (low high : Int), (high - low + 1).toNat ≤ d → 0 ≤ low →
      high < arr.length → high < INT_MAX →
      ∃ r tr, binary_search_trace arr low high target = some (r, tr) ∧
        binary_search arr low high target = some r ∧
        tr.length ≤ (high - low + 1).toNat ∧
        (∀ p ∈ tr, low ≤ p.low ∧ p.low ≤ p.mid ∧ p.mid ≤ p.high ∧ p.high ≤ high ∧
          p.mid = midpoint p.low p.high) ∧
        (∀ p ∈ tr.head?, p.low = low ∧ p.high = high) ∧
        List.Chain' narrows tr := by
  intro d
  induction d with
  | zero =>
    intro low high hd _ _ _
    refine ⟨-1, [], binary_search_trace_exit arr low high target (by omega),
      binary_search_exit arr low high target (by omega), by simp, by simp, by simp, by simp⟩
  | succ d ih =>
    intro low high hd h0 hlen hmax
    by_cases h : low ≤ high
    · have hm := midpoint_bounds low high h
      obtain ⟨hf, v, hv⟩ := binary_search_probe arr low high h h0 hlen (by omega)
      rw [binary_search_trace_step arr low high target v h hf hv,
        binary_search_step arr low high target v h hf hv]
      by_cases hvt : v = target
      · rw [if_pos hvt, if_pos hvt]
        refine ⟨_, _, rfl, rfl, ?_, ?_, ?_, ?_⟩
        · simp only [List.length_singleton]; omega
        · intro p hp
          rw [List.mem_singleton] at hp
          subst hp
          exact ⟨le_refl _, hm.1, hm.2, le_refl _, rfl⟩
        · intro p hp
          simp only [List.head?_cons, Option.mem_def, Option.some.injEq] at hp
          subst hp
          exact ⟨rfl, rfl⟩
        · exact List.chain'_singleton _
      · rw [if_neg hvt, if_neg hvt]
        by_cases hlt : v < target
        · have hf1 : fits (midpoint low high + 1) := by
            simp only [fits, INT_MIN, INT_MAX] at *
            omega
          rw [if_pos hlt, if_pos hf1, if_pos hlt, if_pos hf1]
          obtain ⟨r, tr, htr, hr, hlen2, hin, hhead, hchain⟩ :=
            ih (midpoint low high + 1) high (by omega) (by omega) hlen hmax
          refine ⟨r, ⟨low, high, midpoint low high⟩ :: tr, by rw [htr]; rfl, hr, ?_, ?_, ?_, ?_⟩
          · simp only [List.length_cons]; omega
          · intro p hp
            rcases List.mem_cons.1 hp with hp1 | hp1
            · subst hp1
              exact ⟨le_refl _, hm.1, hm.2, le_refl _, rfl⟩
            · obtain ⟨a1, a2, a3, a4, a5⟩ := hin p hp1
              exact ⟨by omega, a2, a3, a4, a5⟩
          · intro p hp
            simp only [List.head?_cons, Option.mem_def, Option.some.injEq] at hp
            subst hp
            exact ⟨rfl, rfl⟩
          · rw [List.chain'_cons']
            refine ⟨fun q hq => ?_, hchain⟩
            obtain ⟨e1, e2⟩ := hhead q hq
            exact ⟨Or.inl ⟨e1, e2⟩, by rw [e1, e2]; show _ < high - low + 1; omega⟩
        · have hf1 : fits (midpoint low high - 1) := by
            simp only [fits, INT_MIN, INT_MAX] at *
            omega
          rw [if_neg hlt, if_pos hf1, if_neg hlt, if_pos hf1]
          obtain ⟨r, tr, htr, hr, hlen2, hin, hhead, hchain⟩ :=
            ih low (midpoint low high - 1) (by omega) h0 (by omega) (by omega)
          refine ⟨r, ⟨low, high, midpoint low high⟩ :: tr, by rw [htr]; rfl, hr, ?_, ?_, ?_, ?_⟩
          · simp only [List.length_cons]; omega
          · intro p hp
            rcases List.mem_cons.1 hp with hp1 | hp1
            · subst hp1
              exact ⟨le_refl _, hm.1, hm.2, le_refl _, rfl⟩
            · obtain ⟨a1, a2, a3, a4, a5⟩ := hin p hp1
              exact ⟨a1, a2, a3, by omega, a5⟩
          · intro p hp
            simp only [List.head?_cons, Option.mem_def, Option.some.injEq] at hp
            subst hp
            exact ⟨rfl, rfl⟩
          · rw [List.chain'_cons']
            refine ⟨fun q hq => ?_, hchain⟩
            obtain ⟨e1, e2⟩ := hhead q hq
            exact ⟨Or.inr ⟨e1, e2⟩, by rw [e1, e2]; show _ < high - low + 1; omega⟩
    · refine ⟨-1, [], binary_search_trace_exit arr low high target h,
        binary_search_exit arr low high target h, by simp, by simp, by simp, by simp⟩

/-! ## `binary_search`: the number of iterations -/

theorem midpoint_eq (low high : Int) (h : low ≤ high) :
    midpoint low high = low + (high - low) / 2 := by
  unfold midpoint
  rw [Int.tdiv_eq_ediv (by omega) (by omega)]

/-- A search for the last cell of a range, when every other cell of the range is
smaller, takes at least as many iterations as any search of a range that is not
wider. -/
theorem binary_search_trace_le (arr : List Int) (t1 t2 : Int) :
    ∀ (d : Nat) (low1 high1 low2 high2 : Int), (high2 - low2 + 1).toNat ≤ d →
      0 ≤ low1 → high1 < arr.length → high1 < INT_MAX →
      0 ≤ low2 → low2 ≤ high2 → high2 < arr.length → high2 < INT_MAX →
      high1 - low1 ≤ high2 - low2 →
      rd arr high2 = some t2 →
      (∀ j v, low2 ≤ j → j < high2 → rd arr j = some v → v < t2) →
      ∃ r1 tr1 tr2, binary_search_trace arr low1 high1 t1 = some (r1, tr1) ∧
        binary_search_trace arr low2 high2 t2 = some (high2, tr2) ∧
        tr1.length ≤ tr2.length ∧ 1 ≤ tr2.length := by
  intro d
  induction d with
  | zero =>
    intro low1 high1 low2 high2 hd _ _ _ _ h2 _ _ _ _ _
    omega
  | succ d ih =>
    intro low1 high1 low2 high2 hd h01 hlen1 hmax1 h02 h2 hlen2 hmax2 hw hlast hsmall
    have hm2 := midpoint_bounds low2 high2 h2
    have he2 := midpoint_eq low2 high2 h2
    obtain ⟨hf2, v2, hv2⟩ := binary_search_probe arr low2 high2 h2 h02 hlen2 (by omega)
    rw [binary_search_trace_step arr low2 high2 t2 v2 h2 hf2 hv2]
    by_cases hmid : midpoint low2 high2 = high2
    · have hv : v2 = t2 := by
        rw [hmid, hlast] at hv2
        exact (Option.some.inj hv2).symm
      rw [if_pos hv, hmid]
      obtain ⟨r1, tr1, htr1, _, hl1, _⟩ := binary_search_trace_spec arr t1
        (high1 - low1 + 1).toNat low1 high1 (le_refl _) h01 hlen1 hmax1
      refine ⟨r1, tr1, _, htr1, rfl, ?_, by simp⟩
      simp only [List.length_singleton]
      omega
    · have hlt : v2 < t2 := hsmall _ v2 hm2.1 (by omega) hv2
      have hf3 : fits (midpoint low2 high2 + 1) := by
        simp only [fits, INT_MIN, INT_MAX] at *
        omega
      rw [if_neg (by omega), if_pos hlt, if_pos hf3]
      have hsmall2 : ∀ j v, midpoint low2 high2 + 1 ≤ j → j < high2 →
          rd arr j = some v → v < t2 := fun j v hj1 hj2 hj => hsmall j v (by omega) hj2 hj
      by_cases h1 : low1 ≤ high1
      · have hm1 := midpoint_bounds low1 high1 h1
        have he1 := midpoint_eq low1 high1 h1
        obtain ⟨hf1, v1, hv1⟩ := binary_search_probe arr low1 high1 h1 h01 hlen1 (by omega)
        rw [binary_search_trace_step arr low1 high1 t1 v1 h1 hf1 hv1]
        by_cases hvt : v1 = t1
        · obtain ⟨_, _, tr2, _, htr2, _, _⟩ := ih (high1 + 1) high1 (midpoint low2 high2 + 1)
            high2 (by omega) (by omega) hlen1 hmax1 (by omega) (by omega) hlen2 hmax2
            (by omega) hlast hsmall2
          rw [if_pos hvt, htr2]
          refine ⟨_, _, _, rfl, rfl, ?_, ?_⟩ <;> simp
        · rw [if_neg hvt]
          by_cases hlt1 : v1 < t1
          · have hf4 : fits (midpoint low1 high1 + 1) := by
              simp only [fits, INT_MIN, INT_MAX] at *
              omega
            obtain ⟨r1, tr1, tr2, htr1, htr2, hle, _⟩ := ih (midpoint low1 high1 + 1) high1
              (midpoint low2 high2 + 1) high2 (by omega) (by omega) hlen1 hmax1 (by omega)
              (by omega) hlen2 hmax2 (by omega) hlast hsmall2
            rw [if_pos hlt1, if_pos hf4, htr1, htr2]
            refine ⟨_, _, _, rfl, rfl, ?_, ?_⟩ <;> simp [hle]
          · have hf4 : fits (midpoint low1 high1 - 1) := by
              simp only [fits, INT_MIN, INT_MAX] at *
              omega
            obtain ⟨r1, tr1, tr2, htr1, htr2, hle, _⟩ := ih low1 (midpoint low1 high1 - 1)
              (midpoint low2 high2 + 1) high2 (by omega) h01 (by omega) (by omega) (by omega)
              (by omega) hlen2 hmax2 (by omega) hlast hsmall2
            rw [if_neg hlt1, if_pos hf4, htr1, htr2]
            refine ⟨_, _, _, rfl, rfl, ?_, ?_⟩ <;> simp [hle]
      · obtain ⟨_, _, tr2, _, htr2, _, _⟩ := ih low1 high1 (midpoint low2 high2 + 1)
          high2 (by omega) h01 hlen1 hmax1 (by omega) (by omega) hlen2 hmax2
          (by omega) hlast hsmall2
        rw [binary_search_trace_exit arr low1 high1 t1 h1, htr2]
        refine ⟨_, _, _, rfl, rfl, ?_, ?_⟩ <;> simp

/-- C11 (as stated, refuted): in the sorted array `[0, 1, 1]` (`N = 3`) the search
for the last element `arr[2] = 1` stops at the first probe (`mid = 1`), while the
search for the present target `0` takes two iterations. -/
theorem binary_search_depth_counterexample :
    rd [0, 1, 1] (3 - 1) = some 1 ∧ rd [0, 1, 1] 0 = some 0 ∧
    ((0 : Int) ≤ 1 ∧ (1 : Int) ≤ 1) ∧
    binary_search_iterations [0, 1, 1] 0 (3 - 1) 1 = some 1 ∧
    binary_search_iterations [0, 1, 1] 0 (3 - 1) 0 = some 2 ∧
    ¬ ∃ k kt, binary_search_iterations [0, 1, 1] 0 (3 - 1) 1 = some k ∧
      binary_search_iterations [0, 1, 1] 0 (3 - 1) 0 = some kt ∧ kt ≤ k := by
  have hlast : binary_search_iterations [0, 1, 1] 0 (3 - 1) 1 = some 1 := by
    simp [binary_search_iterations, binary_search_trace, midpoint, Int.tdiv, rd, fits,
      INT_MIN, INT_MAX]
  have hzero : binary_search_iterations [0, 1, 1] 0 (3 - 1) 0 = some 2 := by
    simp [binary_search_iterations, binary_search_trace, midpoint, Int.tdiv, rd, fits,
      INT_MIN, INT_MAX]
  refine ⟨by decide, by decide, by decide, hlast, hzero, ?_⟩
  rintro ⟨k, kt, hk, hkt, hle⟩
  rw [hlast] at hk
  rw [hzero] at hkt
  have e1 := Option.some.inj hk
  have e2 := Option.some.inj hkt
  omega

/-- C11 (amended): for every ascending-sorted array of length `N >= 1` whose last
value `arr[N-1]` occurs at no index below `N-1`, the number of loop iterations
of `binary_search(arr, 0, N-1, arr[N-1])` is at least the number performed by
`binary_search(arr, 0, N-1, t)` for every target `t` (present or not). -/
theorem binary_search_last_is_deepest (arr : List Int) (N t last : Int) (h1 : 1 ≤ N)
    (hlen : (arr.length : Int) = N) (hmax : N ≤ INT_MAX)
    (hsorted : ∀ j a b, 0 ≤ j → j < N - 1 →
      rd arr j = some a → rd arr (j + 1) = some b → a ≤ b)
    (hlast : rd arr (N - 1) = some last)
    (huniq : ∀ j, 0 ≤ j → j < N - 1 → rd arr j ≠ some last) :
    ∃ k kt, binary_search_iterations arr 0 (N - 1) last = some k ∧
      binary_search_iterations arr 0 (N - 1) t = some kt ∧ kt ≤ k := by
  have hsmall : ∀ j v, 0 ≤ j → j < N - 1 → rd arr j = some v → v < last := by
    intro j v hj0 hj1 hj
    have he : j + ((N - 1 - j).toNat : Int) = N - 1 := by omega
    have hle := mono_of_adjacent arr 0 (N - 1) (le_refl _) (by omega) hsorted
      (N - 1 - j).toNat j v last hj0 (by omega) hj (by rw [he]; exact hlast)
    have hne : v ≠ last := fun h => huniq j hj0 hj1 (by rw [hj, h])
    omega
  obtain ⟨r1, tr1, tr2, htr1, htr2, hle, _⟩ := binary_search_trace_le arr t last
    ((N - 1) - 0 + 1).toNat 0 (N - 1) 0 (N - 1) (le_refl _) (le_refl _) (by omega)
    (by simp only [INT_MAX] at *; omega) (le_refl _) (by omega) (by omega)
    (by simp only [INT_MAX] at *; omega) (le_refl _) hlast hsmall
  exact ⟨tr2.length, tr1.length, by rw [binary_search_iterations, htr2]; rfl,
    by rw [binary_search_iterations, htr1]; rfl, hle⟩

theorem binary_search_last_is_deepest_witness :
    ((1 : Int) ≤ 3 ∧ (([2, 4, 6] : List Int).length : Int) = 3 ∧ (3 : Int) ≤ INT_MAX ∧
      (∀ j a b, (0 : Int) ≤ j → j < 3 - 1 →
        rd [2, 4, 6] j = some a → rd [2, 4, 6] (j + 1) = some b → a ≤ b) ∧
      rd [2, 4, 6] (3 - 1) = some 6 ∧
      (∀ j, (0 : Int) ≤ j → j < 3 - 1 → rd [2, 4, 6] j ≠ some 6)) ∧
    ∃ k kt, binary_search_iterations [2, 4, 6] 0 (3 - 1) 6 = some k ∧
      binary_search_iterations [2, 4, 6] 0 (3 - 1) 2 = some kt ∧ kt ≤ k := by
  have hs : ∀ j a b, (0 : Int) ≤ j → j < 3 - 1 →
      rd [2, 4, 6] j = some a → rd [2, 4, 6] (j + 1) = some b → a ≤ b := by
    intro j a b h1 h2 ha hb
    have hj : j = 0 ∨ j = 1 := by omega
    rcases hj with rfl | rfl
    · have ea : a = 2 := (Option.some.inj ha).symm
      have eb : b = 4 := (Option.some.inj hb).symm
      omega
    · have ea : a = 4 := (Option.some.inj ha).symm
      have eb : b = 6 := (Option.some.inj hb).symm
      omega
  have hu : ∀ j, (0 : Int) ≤ j → j < 3 - 1 → rd [2, 4, 6] j ≠ some 6 := by
    intro j h1 h2
    have hj : j = 0 ∨ j = 1 := by omega
    rcases hj with rfl | rfl <;> decide
  exact ⟨⟨by decide, by decide, by decide, hs, by decide, hu⟩,
    binary_search_last_is_deepest [2, 4, 6] 3 2 6 (by decide) (by decide) (by decide) hs
      (by decide) hu⟩

/-- C16 (as stated, refuted): for an array of `2^31` zeros, bounds
`low = high = 2^31 - 1` (so `0 <= low` and `high < length(arr)`) and target `1`,
the iteration that probes `mid = 2^31 - 1` does not return and continues with
`low = mid + 1`, which is not representable as `int`: the run of the loop is
not defined, so it neither terminates normally nor keeps its probes in bounds. -/
theorem binary_search_trace_counterexample :
    (0 : Int) ≤ 2147483647 ∧
    (2147483647 : Int) < ((List.replicate 2147483648 (0 : Int)).length : Int) ∧
    rd (List.replicate 2147483648 0) 2147483647 = some 0 ∧
    ¬ fits (2147483647 + 1) ∧
    binary_search_trace (List.replicate 2147483648 0) 2147483647 2147483647 1 = none := by
  have hmid : midpoint 2147483647 2147483647 = 2147483647 := by
    simp [midpoint]
  have hr : rd (List.replicate 2147483648 0) 2147483647 = some 0 := by
    rw [show (2147483647 : Int) = ((2147483647 : Nat) : Int) by rfl, rd_natCast,
      List.getElem?_replicate, if_pos (by omega)]
  have hv : rd (List.replicate 2147483648 0) (midpoint 2147483647 2147483647) = some 0 := by
    rw [hmid]
    exact hr
  refine ⟨by omega, by rw [List.length_replicate]; omega, hr,
    by simp [fits, INT_MIN, INT_MAX], ?_⟩
  rw [binary_search_trace_step _ _ _ _ 0 (le_refl _)
      (by rw [hmid]; simp [fits, INT_MIN, INT_MAX]) hv,
    if_neg (by omega), if_pos (by omega), hmid, if_neg (by simp [fits, INT_MIN, INT_MAX])]

/-- C16 (amended): for every array and every bounds with `0 <= low`,
`high < length(arr)` and `high < INT_MAX` (or with `low > high`), the loop of
`binary_search` terminates after at most `high - low + 1` iterations: each
iteration that does not return continues with one of the two halves around
`mid`, which strictly decreases `high - low + 1`, and every probed index `mid`
satisfies `low0 <= mid <= high0` for the initial bounds, so the cell it reads
exists. -/
theorem binary_search_terminates (arr : List Int) (low high target : Int)
    (h : (0 ≤ low ∧ high < arr.length ∧ high < INT_MAX) ∨ low > high) :
    ∃ r tr, binary_search_trace arr low high target = some (r, tr) ∧
      binary_search arr low high target = some r ∧
      tr.length ≤ (high - low + 1).toNat ∧
      List.Chain' narrows tr ∧
      (∀ p ∈ tr.head?, p.low = low ∧ p.high = high) ∧
      ∀ p ∈ tr, p.mid = midpoint p.low p.high ∧ low ≤ p.low ∧ p.high ≤ high ∧
        low ≤ p.mid ∧ p.mid ≤ high ∧ ∃ v, rd arr p.mid = some v := by
  rcases h with ⟨h0, hlen, hmax⟩ | hgt
  · obtain ⟨r, tr, htr, hr, hl, hin, hhead, hchain⟩ := binary_search_trace_spec arr target
      (high - low + 1).toNat low high (le_refl _) h0 hlen hmax
    refine ⟨r, tr, htr, hr, hl, hchain, hhead, fun p hp => ?_⟩
    obtain ⟨a1, a2, a3, a4, a5⟩ := hin p hp
    exact ⟨a5, a1, a4, by omega, by omega, rd_some_of_lt arr p.mid (by omega) (by omega)⟩
  · exact ⟨-1, [], binary_search_trace_exit arr low high target (by omega),
      binary_search_exit arr low high target (by omega), by simp, by simp, by simp, by simp⟩

theorem binary_search_terminates_witness :
    (((0 : Int) ≤ 0 ∧ (2 : Int) < (([5, 1, 3] : List Int).length : Int) ∧
      (2 : Int) < INT_MAX) ∨ (0 : Int) > 2) ∧
    ∃ r tr, binary_search_trace [5, 1, 3] 0 2 3 = some (r, tr) ∧
      binary_search [5, 1, 3] 0 2 3 = some r ∧
      tr.length ≤ ((2 : Int) - 0 + 1).toNat ∧
      List.Chain' narrows tr ∧
      (∀ p ∈ tr.head?, p.low = 0 ∧ p.high = 2) ∧
      ∀ p ∈ tr, p.mid = midpoint p.low p.high ∧ 0 ≤ p.low ∧ p.high ≤ 2 ∧
        0 ≤ p.mid ∧ p.mid ≤ 2 ∧ ∃ v, rd [5, 1, 3] p.mid = some v :=
  ⟨Or.inl ⟨by decide, by decide, by decide⟩,
    binary_search_terminates [5, 1, 3] 0 2 3 (Or.inl ⟨by decide, by decide, by decide⟩)⟩

/-! ## `bubble_sort`: the result is determined by the multiset -/

/-- On an array of exactly `n` cells `bubble_sort` returns the one sorted
rearrangement of its input. -/
theorem bubble_sort_eq_of_sorted_perm (arr l : List Int) (n : Nat) (hlen : arr.length = n)
    (hn : (n : Int) ≤ INT_MAX) (hp : l.Perm arr) (hs : l.Sorted (· ≤ ·)) :
    bubble_sort arr (n : Int) = some l := by
  obtain ⟨out, hout, hl, hpo, _, hsorted⟩ := bubble_sort_spec arr n (by omega) hn
  have hso : out.Sorted (· ≤ ·) := by
    refine List.pairwise_iff_getElem.2 (fun i j hi hj hij => ?_)
    rw [← List.getD_eq_getElem out 0 hi, ← List.getD_eq_getElem out 0 hj]
    exact hsorted j i (by omega) hij
  rw [hout, List.eq_of_perm_of_sorted (hpo.trans hp.symm) hso hs]

/-! ## The scenario with five elements -/

/-- C12 (as stated, refuted): for the array `[3, 7, 7, 7, 1]` of five integers in
`[0, 1000000)`, `bubble_sort` leaves `[1, 3, 7, 7, 7]` and the search for the
maximum `s[4] = 7` returns index 2 (the first probe), not index 4. -/
theorem binary_search_five_counterexample :
    (∀ x ∈ [3, 7, 7, 7, 1], (0 : Int) ≤ x ∧ x < 1000000) ∧
    bubble_sort [3, 7, 7, 7, 1] 5 = some [1, 3, 7, 7, 7] ∧
    rd [1, 3, 7, 7, 7] 4 = some 7 ∧
    binary_search [1, 3, 7, 7, 7] 0 4 7 = some 2 ∧
    binary_search [1, 3, 7, 7, 7] 0 4 7 ≠ some 4 := by
  have hb : binary_search [1, 3, 7, 7, 7] 0 4 7 = some 2 := by
    simp [binary_search, midpoint, Int.tdiv, rd, fits, INT_MIN, INT_MAX]
  refine ⟨by decide, ?_, by decide, hb, ?_⟩
  · exact bubble_sort_eq_of_sorted_perm [3, 7, 7, 7, 1] [1, 3, 7, 7, 7] 5 rfl (by decide)
      (by decide) (by decide)
  · rw [hb]
    decide

/-- C12 (amended): for every array of 5 integers, with `s` the array after
`bubble_sort(arr, 5)`, `binary_search(s, 0, 4, s[4])` returns an index `r` with
`2 <= r <= 4` and `s[r] == s[4]`; it returns index 4 if and only if the maximum
occurs only once, that is `s[3] != s[4]`. -/
theorem binary_search_five (arr : List Int) (hlen : 5 ≤ arr.length) :
    ∃ s t r, bubble_sort arr 5 = some s ∧ rd s 4 = some t ∧
      binary_search s 0 4 t = some r ∧ rd s r = some t ∧ 2 ≤ r ∧ r ≤ 4 ∧
      (r = 4 ↔ rd s 3 ≠ some t) := by
  obtain ⟨s, hs, hl, _, _, hsorted⟩ := bubble_sort_spec arr 5 hlen (by decide)
  have hsl : 5 ≤ s.length := by omega
  have h4 : rd s 4 = some (s.getD 4 0) := rd_getD s 4 (by omega)
  have h3 : rd s 3 = some (s.getD 3 0) := rd_getD s 3 (by omega)
  have h2 : rd s 2 = some (s.getD 2 0) := rd_getD s 2 (by omega)
  have l24 := hsorted 4 2 (by omega) (by omega)
  have l34 := hsorted 4 3 (by omega) (by omega)
  have l23 := hsorted 3 2 (by omega) (by omega)
  have m04 : midpoint 0 4 = 2 := by decide
  have m34 : midpoint 3 4 = 3 := by decide
  have m44 : midpoint 4 4 = 4 := by decide
  have f : ∀ x : Int, 0 ≤ x → x ≤ 5 → fits x := by
    intro x hx0 hx1
    simp only [fits, INT_MIN, INT_MAX]
    omega
  refine ⟨s, s.getD 4 0, ?_⟩
  rw [binary_search_step s 0 4 _ (s.getD 2 0) (by decide)
    ⟨f _ (by decide) (by decide), by rw [m04]; exact f _ (by decide) (by decide)⟩
    (by rw [m04]; exact h2), m04]
  by_cases e2 : s.getD 2 0 = s.getD 4 0
  · rw [if_pos e2]
    refine ⟨2, ‹_›, h4, rfl, by rw [h2, e2], by decide, by decide, ?_⟩
    constructor
    · intro h; omega
    · intro h
      exact absurd (by rw [h3]; congr 1; omega) h
  · rw [if_neg e2, if_pos (by omega), if_pos (f _ (by decide) (by decide))]
    rw [show (2 : Int) + 1 = 3 by decide,
      binary_search_step s 3 4 _ (s.getD 3 0) (by decide)
        ⟨f _ (by decide) (by decide), by rw [m34]; exact f _ (by decide) (by decide)⟩
        (by rw [m34]; exact h3), m34]
    by_cases e3 : s.getD 3 0 = s.getD 4 0
    · rw [if_pos e3]
      refine ⟨3, ‹_›, h4, rfl, by rw [h3, e3], by decide, by decide, ?_⟩
      constructor
      · intro h; omega
      · intro h
        exact absurd (by rw [h3, e3]) h
    · rw [if_neg e3, if_pos (by omega), if_pos (f _ (by decide) (by decide))]
      rw [show (3 : Int) + 1 = 4 by decide,
        binary_search_step s 4 4 _ (s.getD 4 0) (by decide)
          ⟨f _ (by decide) (by decide), by rw [m44]; exact f _ (by decide) (by decide)⟩
          (by rw [m44]; exact h4), m44, if_pos rfl]
      refine ⟨4, ‹_›, h4, rfl, h4, by decide, by decide, ?_⟩
      constructor
      · intro _ h
        rw [h3] at h
        exact e3 (Option.some.inj h)
      · intro _; rfl

theorem binary_search_five_witness :
    (5 ≤ ([3, 8, 1, 9, 4] : List Int).length) ∧
    ∃ s t r, bubble_sort [3, 8, 1, 9, 4] 5 = some s ∧ rd s 4 = some t ∧
      binary_search s 0 4 t = some r ∧ rd s r = some t ∧ 2 ≤ r ∧ r ≤ 4 ∧
      (r = 4 ↔ rd s 3 ≠ some t) :=
  ⟨by decide, binary_search_five [3, 8, 1, 9, 4] (by decide)⟩

/-! ## `bubble_sort`: the record of comparisons -/

theorem bubble_sort_inner_trace_exit (arr : List Int) (n i j : Int)
    (hf : fits (n - i) ∧ fits (n - i - 1)) (h : ¬ j < n - i - 1) :
    bubble_sort_inner_trace arr n i j = some (arr, []) := by
  rw [bubble_sort_inner_trace, if_pos hf, dif_neg h]

theorem bubble_sort_inner_trace_keep (arr : List Int) (n i j a b : Int)
    (hf : fits (n - i) ∧ fits (n - i - 1)) (h : j < n - i - 1) (hj : fits (j + 1))
    (ha : rd arr j = some a) (hb : rd arr (j + 1) = some b) (hab : ¬ a > b) :
    bubble_sort_inner_trace arr n i j =
      (bubble_sort_inner_trace arr n i (j + 1)).map (fun r => (r.1, (j, j + 1) :: r.2)) := by
  rw [bubble_sort_inner_trace, if_pos hf, dif_pos h, if_pos hj, bind_of_eq_some _ ha,
    bind_of_eq_some _ hb, if_neg hab]

theorem bubble_sort_inner_trace_swap (arr arr1 arr2 : List Int) (n i j a b : Int)
    (hf : fits (n - i) ∧ fits (n - i - 1)) (h : j < n - i - 1) (hj : fits (j + 1))
    (ha : rd arr j = some a) (hb : rd arr (j + 1) = some b) (hab : a > b)
    (h1 : wr arr j b = some arr1) (h2 : wr arr1 (j + 1) a = some arr2) :
    bubble_sort_inner_trace arr n i j =
      (bubble_sort_inner_trace arr2 n i (j + 1)).map (fun r => (r.1, (j, j + 1) :: r.2)) := by
  rw [bubble_sort_inner_trace, if_pos hf, dif_pos h, if_pos hj, bind_of_eq_some _ ha,
    bind_of_eq_some _ hb, if_pos hab, bind_of_eq_some _ h1, bind_of_eq_some _ h2]

/-- A pass over the cells `0 .. m` started at `j` compares the pairs
`(k, k + 1)` for `k = j .. m - 1` in that order, whatever the array holds, and
updates the array as `bubble_sort_inner` does. -/
theorem bubble_sort_inner_trace_spec (n i : Int) (m : Nat) (hm : n - i - 1 = (m : Int))
    (hf : fits (n - i) ∧ fits (n - i - 1)) :
    ∀ (d : Nat) (arr : List Int) (j : Nat), m - j ≤ d → j ≤ m → m < arr.length →
      ∀ out, bubble_sort_inner arr n i (j : Int) = some out →
        bubble_sort_inner_trace arr n i (j : Int) =
          some (out, (List.range' j (m - j)).map (fun k : Nat => ((k : Int), (k : Int) + 1))) := by
  intro d
  induction d with
  | zero =>
    intro arr j hd hjm _ out hout
    have hj : j = m := by omega
    subst hj
    rw [bubble_sort_inner_exit arr n i _ hf (by omega)] at hout
    rw [bubble_sort_inner_trace_exit arr n i _ hf (by omega), ← Option.some.inj hout]
    simp
  | succ d ih =>
    intro arr j hd hjm hlen out hout
    by_cases hj : j = m
    · subst hj
      rw [bubble_sort_inner_exit arr n i _ hf (by omega)] at hout
      rw [bubble_sort_inner_trace_exit arr n i _ hf (by omega), ← Option.some.inj hout]
      simp
    · have hlt : (j : Int) < n - i - 1 := by omega
      have hj1 : fits ((j : Int) + 1) := by
        simp only [fits, INT_MIN, INT_MAX] at *
        omega
      have hjl : j < arr.length := by omega
      have hjl1 : j + 1 < arr.length := by omega
      have ha := rd_getD arr j hjl
      have hc : (j : Int) + 1 = ((j + 1 : Nat) : Int) := by push_cast; rfl
      have hb : rd arr ((j : Int) + 1) = some (arr.getD (j + 1) 0) := by
        rw [hc]
        exact rd_getD arr (j + 1) hjl1
      have hlist : (List.range' j (m - j)).map (fun k : Nat => ((k : Int), (k : Int) + 1)) =
          ((j : Int), (j : Int) + 1) ::
            (List.range' (j + 1) (m - (j + 1))).map (fun k : Nat => ((k : Int), (k : Int) + 1)) := by
        rw [show m - j = (m - (j + 1)) + 1 by omega, List.range'_succ, List.map_cons]
      by_cases hab : arr.getD j 0 > arr.getD (j + 1) 0
      · have h1 := wr_natCast arr j (arr.getD (j + 1) 0) hjl
        have h2 : wr (arr.set j (arr.getD (j + 1) 0)) ((j : Int) + 1) (arr.getD j 0) =
            some ((arr.set j (arr.getD (j + 1) 0)).set (j + 1) (arr.getD j 0)) := by
          rw [hc]
          exact wr_natCast _ (j + 1) _ (by simpa using hjl1)
        rw [bubble_sort_inner_swap arr _ _ n i j _ _ hf hlt hj1 ha hb hab h1 h2, hc] at hout
        rw [bubble_sort_inner_trace_swap arr _ _ n i j _ _ hf hlt hj1 ha hb hab h1 h2, hlist]
        rw [hc, ih _ (j + 1) (by omega) (by omega) (by simpa using hlen) out hout]
        simp
      · rw [bubble_sort_inner_keep arr n i j _ _ hf hlt hj1 ha hb hab, hc] at hout
        rw [bubble_sort_inner_trace_keep arr n i j _ _ hf hlt hj1 ha hb hab, hlist]
        rw [hc, ih arr (j + 1) (by omega) (by omega) hlen out hout]
        simp

theorem bubble_sort_outer_trace_exit (arr : List Int) (n i : Int) (hf : fits (n - 1))
    (h : ¬ i < n - 1) : bubble_sort_outer_trace arr n i = some (arr, []) := by
  rw [bubble_sort_outer_trace, if_pos hf, dif_neg h]

theorem bubble_sort_outer_trace_step (arr : List Int) (r1 : List Int × List (Int × Int))
    (n i : Int) (hf : fits (n - 1)) (h : i < n - 1)
    (hin : bubble_sort_inner_trace arr n i 0 = some r1) (hi : fits (i + 1)) :
    bubble_sort_outer_trace arr n i =
      (bubble_sort_outer_trace r1.1 n (i + 1)).map (fun r => (r.1, r1.2 :: r.2)) := by
  rw [bubble_sort_outer_trace, if_pos hf, dif_pos h, hin]
  exact if_pos hi

theorem spec_pass_length (n i : Nat) : (spec_pass n i).length = n - i - 1 := by
  simp [spec_pass]

/-- The passes from pass `i` on are the passes `i .. n - 2` of the specification,
whatever the array holds; they make `(n - 1 - i) (n - i) / 2` comparisons. -/
theorem bubble_sort_outer_trace_spec (n : Nat) (hn : (n : Int) ≤ INT_MAX) :
    ∀ (d : Nat) (arr : List Int) (i : Nat), n - 1 - i ≤ d → i + 1 ≤ n → n ≤ arr.length →
      ∀ out, bubble_sort_outer arr (n : Int) (i : Int) = some out →
        ∃ passes, bubble_sort_outer_trace arr (n : Int) (i : Int) = some (out, passes) ∧
          passes = (List.range' i (n - 1 - i)).map (fun k : Nat => spec_pass n k) ∧
          2 * (passes.map List.length).sum = (n - 1 - i) * (n - i) := by
  have hf : fits ((n : Int) - 1) := by
    simp only [fits, INT_MIN, INT_MAX] at *
    omega
  intro d
  induction d with
  | zero =>
    intro arr i hd hi _ out hout
    rw [bubble_sort_outer_exit arr _ _ hf (by omega)] at hout
    refine ⟨[], ?_, ?_, ?_⟩
    · rw [bubble_sort_outer_trace_exit arr _ _ hf (by omega), ← Option.some.inj hout]
    · rw [show n - 1 - i = 0 by omega]; rfl
    · rw [show n - 1 - i = 0 by omega]; simp
  | succ d ih =>
    intro arr i hd hi hlen out hout
    by_cases hlast : i + 1 = n
    · rw [bubble_sort_outer_exit arr _ _ hf (by omega)] at hout
      refine ⟨[], ?_, ?_, ?_⟩
      · rw [bubble_sort_outer_trace_exit arr _ _ hf (by omega), ← Option.some.inj hout]
      · rw [show n - 1 - i = 0 by omega]; rfl
      · rw [show n - 1 - i = 0 by omega]; simp
    · have hfi : fits ((n : Int) - (i : Int)) ∧ fits ((n : Int) - (i : Int) - 1) := by
        simp only [fits, INT_MIN, INT_MAX] at *
        omega
      have hfi1 : fits ((i : Int) + 1) := by
        simp only [fits, INT_MIN, INT_MAX] at *
        omega
      have hmi : (n : Int) - (i : Int) - 1 = ((n - i - 1 : Nat) : Int) := by omega
      obtain ⟨out1, hout1, hl1, _⟩ :=
        bubble_sort_inner_spec (n : Int) (i : Int) (n - i - 1) hmi hfi (n - i - 1) arr 0
          (by omega) (by omega) (by omega)
      have htr1 := bubble_sort_inner_trace_spec (n : Int) (i : Int) (n - i - 1) hmi hfi
        (n - i - 1) arr 0 (by omega) (by omega) (by omega) out1 hout1
      have hc : (i : Int) + 1 = ((i + 1 : Nat) : Int) := by push_cast; rfl
      rw [bubble_sort_outer_step arr out1 _ _ hf (by omega) hout1 hfi1, hc] at hout
      obtain ⟨passes, hp, hpe, hsum⟩ := ih out1 (i + 1) (by omega) (by omega) (by omega) out hout
      rw [bubble_sort_outer_trace_step arr _ _ _ hf (by omega) htr1 hfi1, hc, hp]
      refine ⟨spec_pass n i :: passes, ?_, ?_, ?_⟩
      · simp [spec_pass, List.range_eq_range']
      · rw [hpe, show n - 1 - i = (n - 1 - (i + 1)) + 1 by omega, List.range'_succ,
          List.map_cons]
      · rw [List.map_cons, List.sum_cons, spec_pass_length, Nat.mul_add, hsum]
        obtain ⟨k, hk⟩ : ∃ k, n = i + k + 2 := ⟨n - i - 2, by omega⟩
        subst hk
        rw [show i + k + 2 - i - 1 = k + 1 by omega, show i + k + 2 - 1 - (i + 1) = k by omega,
          show i + k + 2 - (i + 1) = k + 1 by omega, show i + k + 2 - 1 - i = k + 1 by omega,
          show i + k + 2 - i = k + 2 by omega]
        ring

/-- C17: `bubble_sort` has no early exit: for every array and `n >= 1`, whatever the
contents, `bubble_sort(arr, n)` consists of exactly `n - 1` passes, pass `i`
(`i = 0 .. n-2`) comparing the adjacent pairs `(j, j + 1)` for `j = 0 .. n-i-2`
in that order, so the number of comparisons is exactly `n (n - 1) / 2`. -/
theorem bubble_sort_no_early_exit (arr : List Int) (n : Int) (h1 : 1 ≤ n)
    (hlen : n ≤ arr.length) (hmax : n ≤ INT_MAX) :
    ∃ out passes, bubble_sort_trace arr n = some (out, passes) ∧
      bubble_sort arr n = some out ∧
      passes = spec_passes n.toNat ∧
      passes.length = n.toNat - 1 ∧
      (∀ i : Nat, i < n.toNat - 1 → passes[i]? = some (spec_pass n.toNat i) ∧
        (spec_pass n.toNat i).length = n.toNat - i - 1) ∧
      (passes.map List.length).sum = n.toNat * (n.toNat - 1) / 2 := by
  obtain ⟨m, rfl⟩ := Int.eq_ofNat_of_zero_le (show 0 ≤ n by omega)
  have hm : 1 ≤ m := by omega
  obtain ⟨out, hout, _⟩ := bubble_sort_spec arr m (by omega) hmax
  obtain ⟨passes, hp, hpe, hsum⟩ := bubble_sort_outer_trace_spec m hmax (m - 1) arr 0
    (by omega) (by omega) (by omega) out hout
  have hpe2 : passes = spec_passes m := by
    rw [hpe, spec_passes, List.range_eq_range', Nat.sub_zero]
  have htn : ((m : Int)).toNat = m := Int.toNat_ofNat m
  refine ⟨out, passes, hp, hout, by rw [htn]; exact hpe2, ?_, ?_, ?_⟩
  · rw [htn, hpe2]
    simp [spec_passes]
  · intro i hi
    rw [htn] at hi
    rw [htn, hpe2]
    refine ⟨?_, spec_pass_length m i⟩
    simp [spec_passes, List.getElem?_range, hi]
  · rw [htn]
    have h2 : 2 * (passes.map List.length).sum = m * (m - 1) := by
      rw [hsum]
      simp only [Nat.sub_zero]
      exact Nat.mul_comm _ _
    omega

theorem bubble_sort_no_early_exit_witness :
    ((1 : Int) ≤ 3 ∧ (3 : Int) ≤ (([1, 2, 3] : List Int).length : Int) ∧
      (3 : Int) ≤ INT_MAX) ∧
    ∃ out passes, bubble_sort_trace [1, 2, 3] 3 = some (out, passes) ∧
      bubble_sort [1, 2, 3] 3 = some out ∧
      passes = spec_passes (3 : Int).toNat ∧
      passes.length = (3 : Int).toNat - 1 ∧
      (∀ i : Nat, i < (3 : Int).toNat - 1 →
        passes[i]? = some (spec_pass (3 : Int).toNat i) ∧
        (spec_pass (3 : Int).toNat i).length = (3 : Int).toNat - i - 1) ∧
      (passes.map List.length).sum = (3 : Int).toNat * ((3 : Int).toNat - 1) / 2 :=
  ⟨⟨by decide, by decide, by decide⟩,
    bubble_sort_no_early_exit [1, 2, 3] 3 (by decide) (by decide) (by decide)⟩

theorem spec_passes_run :
    spec_passes 4 = [[(0, 1), (1, 2), (2, 3)], [(0, 1), (1, 2)], [(0, 1)]] := by
  decide

/-! ## Properties of `generate_random_array` -/

theorem generate_random_array_loop_spec (rand : Nat → Int) (n : Nat)
    (hmax : (n : Int) ≤ INT_MAX) :
    ∀ (d : Nat) (arr : List Int) (i : Nat), n - i ≤ d → i ≤ n → n ≤ arr.length →
      ∃ out, generate_random_array_loop rand arr (n : Int) (i : Int) i = some out ∧
        out.length = arr.length ∧
        ∀ k : Nat, out[k]? =
          if i ≤ k ∧ k < n then some ((rand k).tmod 1000000) else arr[k]? := by
  intro d
  induction d with
  | zero =>
    intro arr i hd hi _
    refine ⟨arr, ?_, rfl, fun k => ?_⟩
    · rw [generate_random_array_loop, dif_neg (by omega)]
    · rw [if_neg (by omega)]
  | succ d ih =>
    intro arr i hd hi hlen
    by_cases hin : i = n
    · refine ⟨arr, ?_, rfl, fun k => ?_⟩
      · rw [generate_random_array_loop, dif_neg (by omega)]
      · rw [if_neg (by omega)]
    · have hil : i < arr.length := by omega
      have hf : fits ((i : Int) + 1) := by
        simp only [fits, INT_MIN, INT_MAX] at *
        omega
      obtain ⟨out, hout, hl, hk⟩ := ih (arr.set i ((rand i).tmod 1000000)) (i + 1) (by omega)
        (by omega) (by simpa using hlen)
      refine ⟨out, ?_, by simpa using hl, fun k => ?_⟩
      · rw [generate_random_array_loop, dif_pos (by omega), wr_natCast arr i _ hil]
        show (if fits ((i : Int) + 1) then _ else none) = some out
        rw [if_pos hf, show (i : Int) + 1 = ((i + 1 : Nat) : Int) by push_cast; rfl]
        exact hout
      · rw [hk k, List.getElem?_set]
        by_cases h1 : i = k
        · subst h1
          rw [if_neg (by omega), if_pos rfl, if_pos hil, if_pos ⟨le_refl _, by omega⟩]
        · by_cases h2 : i + 1 ≤ k ∧ k < n
          · rw [if_pos h2, if_pos ⟨by omega, h2.2⟩]
          · rw [if_neg h2, if_neg h1, if_neg (by omega)]

/-- The whole of `generate_random_array` on a slice of `n` cells. -/
theorem generate_random_array_spec (rand : Nat → Int) (arr : List Int) (n : Nat)
    (hlen : n ≤ arr.length) (hmax : (n : Int) ≤ INT_MAX) :
    ∃ out, generate_random_array rand arr (n : Int) = some out ∧ out.length = arr.length ∧
      ∀ k : Nat, out[k]? = if k < n then some ((rand k).tmod 1000000) else arr[k]? := by
  obtain ⟨out, hout, hl, hk⟩ := generate_random_array_loop_spec rand n hmax n arr 0
    (by omega) (by omega) hlen
  refine ⟨out, hout, hl, fun k => ?_⟩
  rw [hk k]
  by_cases h : k < n
  · rw [if_pos ⟨by omega, h⟩, if_pos h]
  · rw [if_neg (by omega), if_neg h]

/-- C13: for every `n >= 0` and every stream of non-negative values returned by
`rand()`, `generate_random_array(arr, n)` writes exactly the indices `0 .. n-1`,
setting `arr[i] = r_i mod 1000000`, so every generated cell lies in
`[0, 1000000)`; the cells from `n` on keep their content. -/
theorem generate_random_array_range (rand : Nat → Int) (arr : List Int) (n : Int)
    (hrand : ∀ k, 0 ≤ rand k) (h0 : 0 ≤ n) (hlen : n ≤ arr.length) (hmax : n ≤ INT_MAX) :
    ∃ out, generate_random_array rand arr n = some out ∧ out.length = arr.length ∧
      (∀ i, 0 ≤ i → i < n → rd out i = some (rand i.toNat % 1000000)) ∧
      (∀ i, 0 ≤ i → i < n → ∃ v, rd out i = some v ∧ 0 ≤ v ∧ v < 1000000) ∧
      (∀ i, n ≤ i → rd out i = rd arr i) := by
  obtain ⟨m, rfl⟩ := Int.eq_ofNat_of_zero_le h0
  obtain ⟨out, hout, hl, hk⟩ := generate_random_array_spec rand arr m (by omega) hmax
  have hcell : ∀ i : Int, 0 ≤ i → i < (m : Int) →
      rd out i = some (rand i.toNat % 1000000) := by
    intro i hi0 hi1
    obtain ⟨k, rfl⟩ := Int.eq_ofNat_of_zero_le hi0
    rw [rd_natCast, hk k, if_pos (by omega), Int.toNat_ofNat,
      Int.tmod_eq_emod (hrand k) (by decide)]
  refine ⟨out, hout, hl, hcell, fun i hi0 hi1 => ?_, fun i hi => ?_⟩
  · refine ⟨_, hcell i hi0 hi1, ?_, ?_⟩
    · exact Int.emod_nonneg _ (by decide)
    · exact Int.emod_lt_of_pos _ (by decide)
  · obtain ⟨k, rfl⟩ := Int.eq_ofNat_of_zero_le (show 0 ≤ i by omega)
    rw [rd_natCast, rd_natCast, hk k, if_neg (by omega)]

theorem generate_random_array_range_witness :
    ((∀ k : Nat, (0 : Int) ≤ (fun k : Nat => (1234567 : Int) * k) k) ∧ (0 : Int) ≤ 2 ∧
      (2 : Int) ≤ (([9, 9, 9] : List Int).length : Int) ∧ (2 : Int) ≤ INT_MAX) ∧
    ∃ out, generate_random_array (fun k : Nat => (1234567 : Int) * k) [9, 9, 9] 2 = some out ∧
      out.length = ([9, 9, 9] : List Int).length ∧
      (∀ i, 0 ≤ i → i < (2 : Int) →
        rd out i = some ((fun k : Nat => (1234567 : Int) * k) i.toNat % 1000000)) ∧
      (∀ i, 0 ≤ i → i < (2 : Int) → ∃ v, rd out i = some v ∧ 0 ≤ v ∧ v < 1000000) ∧
      (∀ i, (2 : Int) ≤ i → rd out i = rd [9, 9, 9] i) :=
  ⟨⟨fun k => by positivity, by decide, by decide, by decide⟩,
    generate_random_array_range (fun k : Nat => (1234567 : Int) * k) [9, 9, 9] 2
      (fun k => by positivity) (by decide) (by decide) (by decide)⟩

theorem generate_random_array_run :
    generate_random_array (fun k : Nat => (1234567 : Int) * k) [9, 9, 9] 2 =
      some [0, 234567, 9] := by
  simp [generate_random_array, generate_random_array_loop, wr, fits, INT_MIN, INT_MAX,
    Int.tmod]

/-! ## The harness: copying and reversing a whole block -/

theorem copy_loop_spec (base : List Int) (n : Nat) (hb : n ≤ base.length)
    (hmax : (n : Int) ≤ INT_MAX) :
    ∀ (d : Nat) (arr : List Int) (k : Nat), n - k ≤ d → k ≤ n → n ≤ arr.length →
      ∃ out, copy_loop base arr (n : Int) (k : Int) = some out ∧ out.length = arr.length ∧
        ∀ j : Nat, out[j]? = if k ≤ j ∧ j < n then base[j]? else arr[j]? := by
  intro d
  induction d with
  | zero =>
    intro arr k hd hk _
    refine ⟨arr, ?_, rfl, fun j => ?_⟩
    · rw [copy_loop, dif_neg (by omega)]
    · rw [if_neg (by omega)]
  | succ d ih =>
    intro arr k hd hk hlen
    by_cases hkn : k = n
    · refine ⟨arr, ?_, rfl, fun j => ?_⟩
      · rw [copy_loop, dif_neg (by omega)]
      · rw [if_neg (by omega)]
    · have hkb : k < base.length := by omega
      have hkl : k < arr.length := by omega
      have hf : fits ((k : Int) + 1) := by
        simp only [fits, INT_MIN, INT_MAX] at *
        omega
      obtain ⟨out, hout, hl, hj⟩ := ih (arr.set k base[k]) (k + 1) (by omega)
        (by omega) (by simpa using hlen)
      refine ⟨out, ?_, by simpa using hl, fun j => ?_⟩
      · rw [copy_loop, dif_pos (by omega), rd_natCast, List.getElem?_eq_getElem hkb]
        show (match wr arr (k : Int) base[k] with
          | none => none
          | some arr1 => if fits ((k : Int) + 1) then copy_loop base arr1 n ((k : Int) + 1)
              else none) = some out
        rw [wr_natCast arr k _ hkl]
        show (if fits ((k : Int) + 1) then _ else none) = some out
        rw [if_pos hf, show (k : Int) + 1 = ((k + 1 : Nat) : Int) by push_cast; rfl]
        exact hout
      · rw [hj j, List.getElem?_set]
        by_cases h1 : k = j
        · subst h1
          rw [if_neg (by omega), if_pos rfl, if_pos hkl, if_pos ⟨le_refl _, by omega⟩,
            List.getElem?_eq_getElem hkb]
        · by_cases h2 : k + 1 ≤ j ∧ j < n
          · rw [if_pos h2, if_pos ⟨by omega, h2.2⟩]
          · rw [if_neg h2, if_neg h1, if_neg (by omega)]

/-- Copying into a block of exactly `n` cells leaves the first `n` cells of the
base array. -/
theorem copy_loop_eq_take (base arr : List Int) (n : Nat) (hb : n ≤ base.length)
    (hmax : (n : Int) ≤ INT_MAX) (ha : arr.length = n) :
    copy_loop base arr (n : Int) 0 = some (base.take n) := by
  obtain ⟨out, hout, hl, hj⟩ := copy_loop_spec base n hb hmax n arr 0 (by omega) (by omega)
    (by omega)
  have he : (0 : Int) = ((0 : Nat) : Int) := rfl
  rw [he, hout]
  congr 1
  apply List.ext_getElem?
  intro j
  rw [hj j, List.getElem?_take]
  by_cases h : j < n
  · rw [if_pos ⟨by omega, h⟩, if_pos h]
  · rw [if_neg (by omega), if_neg h, List.getElem?_eq_none (by omega)]

/-- Reversing a block of exactly `n` cells leaves the reversed list. -/
theorem reverse_array_eq_reverse (arr : List Int) (n : Nat) (ha : arr.length = n)
    (hmax : (n : Int) ≤ INT_MAX) : reverse_array arr (n : Int) = some arr.reverse := by
  obtain ⟨out, hout, hl, hk⟩ := reverse_array_spec arr n (by omega) hmax
  rw [hout]
  congr 1
  apply List.ext_getElem?
  intro k
  rw [hk k]
  by_cases h : k < n
  · rw [if_pos h, List.getElem?_reverse (by omega), ha]
  · rw [if_neg h, List.getElem?_eq_none (by omega),
      List.getElem?_eq_none (by rw [List.length_reverse]; omega)]

theorem malloc_ok_eq (env : Env) (k : Nat) (n : Int) (h : env.malloc_ok k = true) :
    malloc env k n = some ((List.range n.toNat).map (env.fresh k)) := by
  rw [malloc, if_pos h]

/-! ## The harness: one size -/

/-- The body of the loop of `main` for a size `n` that the base array covers: it
is defined, leaves the base array alone, appends one line to the output and
records the tests. -/
theorem main_test_spec (env : Env) (i : Nat) (n : Nat) (st : State)
    (hok : env.malloc_ok (i + 1) = true) (h1 : 1 ≤ n) (hn : n ≤ st.arr_base.length)
    (hmax : (n : Int) ≤ INT_MAX) :
    ∃ r1 s r2, bubble_sort (st.arr_base.take n) (n : Int) = some s ∧
      main_test env i (n : Int) st = some
        { arr_base := st.arr_base,
          stdout := st.stdout ++ (toString (n : Int)).toList ++ [','] ++
            env.time_text i 0 ++ [','] ++ env.time_text i 1 ++ [','] ++
            env.time_text i 2 ++ ['\n'],
          tests := st.tests ++ [⟨(n : Int), r1, s, r2, (st.arr_base.take n).reverse, s⟩] } := by
  have hpl : (st.arr_base.take n).length = n := by
    rw [List.length_take]; omega
  have hm := malloc_ok_eq env (i + 1) (n : Int) hok
  have hc1 := copy_loop_eq_take st.arr_base ((List.range (n : Int).toNat).map (env.fresh (i + 1)))
    n hn hmax (by simp)
  have hf : fits ((n : Int) - 1) := by
    simp only [fits, INT_MIN, INT_MAX] at *
    omega
  obtain ⟨t1, ht1⟩ := rd_some_of_lt (st.arr_base.take n) ((n : Int) - 1) (by omega) (by omega)
  have hlin : ∃ r1, linear_search (st.arr_base.take n) (n : Int) t1 = some r1 := by
    rcases linear_search_loop_spec (st.arr_base.take n) (n : Int) t1 (by omega) hmax
      ((n : Int) - 0).toNat 0 rfl (le_refl _) (by omega) with ⟨r, hr, _⟩ | ⟨hr, _⟩
    · exact ⟨r, hr⟩
    · exact ⟨-1, hr⟩
  obtain ⟨r1, hr1⟩ := hlin
  obtain ⟨s, hs, hsl, hsp, _, hss⟩ := bubble_sort_spec (st.arr_base.take n) n (by omega) hmax
  obtain ⟨t2, ht2⟩ := rd_some_of_lt s ((n : Int) - 1) (by omega) (by omega)
  obtain ⟨r2, hr2, _⟩ := binary_search_sound s t2 (((n : Int) - 1) - 0 + 1).toNat 0
    ((n : Int) - 1) (le_refl _) (le_refl _) (by omega) (by simp only [INT_MAX] at *; omega)
  have hc2 := copy_loop_eq_take st.arr_base s n hn hmax (by omega)
  have hrev := reverse_array_eq_reverse (st.arr_base.take n) n hpl hmax
  have hso : s.Sorted (· ≤ ·) := by
    refine List.pairwise_iff_getElem.2 (fun a b ha hb hab => ?_)
    rw [← List.getD_eq_getElem s 0 ha, ← List.getD_eq_getElem s 0 hb]
    exact hss b a (by omega) hab
  have hs3 := bubble_sort_eq_of_sorted_perm (st.arr_base.take n).reverse s n
    (by rw [List.length_reverse]; exact hpl) hmax
    (hsp.trans (List.reverse_perm _).symm) hso
  refine ⟨r1, s, r2, hs, ?_⟩
  unfold main_test
  rw [bind_of_eq_some _ hm, bind_of_eq_some _ hc1, if_pos hf, bind_of_eq_some _ ht1,
    bind_of_eq_some _ hr1, bind_of_eq_some _ hs, bind_of_eq_some _ ht2,
    bind_of_eq_some _ hr2, bind_of_eq_some _ hc2, bind_of_eq_some _ hrev,
    bind_of_eq_some _ hs3]

/-- The body of the loop of `main`, for a size given as an `int`. -/
theorem main_test_ok (env : Env) (i : Nat) (n : Int) (st : State)
    (hok : env.malloc_ok (i + 1) = true) (h1 : 1 ≤ n) (hn : n ≤ st.arr_base.length)
    (hmax : n ≤ INT_MAX) :
    ∃ t, test_record_ok st.arr_base n t ∧
      main_test env i n st = some
        { arr_base := st.arr_base, stdout := st.stdout ++ spec_line env i n,
          tests := st.tests ++ [t] } := by
  obtain ⟨m, rfl⟩ := Int.eq_ofNat_of_zero_le (show 0 ≤ n by omega)
  obtain ⟨r1, s, r2, hs, hmain⟩ := main_test_spec env i m st hok (by omega) (by omega) hmax
  refine ⟨⟨(m : Int), r1, s, r2, (st.arr_base.take m).reverse, s⟩, ⟨rfl, ?_, ?_, rfl⟩, ?_⟩
  · rw [Int.toNat_ofNat]; exact hs
  · rw [Int.toNat_ofNat]
  · rw [hmain]
    simp [spec_line, List.append_assoc]

/-! ## The harness: the whole run -/

theorem main_loop_exit (env : Env) (st : State) (i : Int) (h : ¬ i < num_tests) :
    main_loop env st i = some st := by
  rw [main_loop, dif_neg h]

theorem main_loop_step (env : Env) (st st1 : State) (i n : Int) (h : i < num_tests)
    (hn : rd n_values i = some n) (ht : main_test env i.toNat n st = some st1)
    (hf : fits (i + 1)) : main_loop env st i = main_loop env st1 (i + 1) := by
  rw [main_loop, dif_pos h, hn]
  show (match main_test env i.toNat n st with
    | none => none
    | some st1 => if fits (i + 1) then main_loop env st1 (i + 1) else none) = _
  rw [ht]
  exact if_pos hf

theorem main_of_steps (env : Env) (block base : List Int) (st : State)
    (hm : malloc env 0 MAX_N = some block)
    (hg : generate_random_array env.rand block MAX_N = some base)
    (hl : main_loop env ⟨base, header, []⟩ 0 = some st) :
    main env = some ⟨0, st.stdout, [], st.arr_base, st.tests⟩ := by
  rw [main, hm]
  simp only [hg, hl]

/-- A run of `main` in which every allocation succeeds: it exits with code 0, the
base array is at the end what `generate_random_array` made it, the output is
the header followed by one line per size, and the record of each size agrees
with the base array. -/
theorem main_spec (env : Env) (hok : ∀ k, k ≤ 4 → env.malloc_ok k = true) :
    ∃ base t0 t1 t2 t3,
      generate_random_array env.rand ((List.range MAX_N.toNat).map (env.fresh 0)) MAX_N =
        some base ∧
      base.length = 1000000 ∧
      (∀ k : Nat, k < 1000000 → base[k]? = some ((env.rand k).tmod 1000000)) ∧
      test_record_ok base 1000 t0 ∧ test_record_ok base 10000 t1 ∧
      test_record_ok base 100000 t2 ∧ test_record_ok base 1000000 t3 ∧
      main env = some ⟨0,
        header ++ spec_line env 0 1000 ++ spec_line env 1 10000 ++ spec_line env 2 100000 ++
          spec_line env 3 1000000,
        [], base, [t0, t1, t2, t3]⟩ := by
  have hm := malloc_ok_eq env 0 MAX_N (hok 0 (by omega))
  have hbl : ((List.range MAX_N.toNat).map (env.fresh 0)).length = 1000000 := by
    rw [List.length_map, List.length_range]
    rfl
  obtain ⟨base, hg, hl, hcell⟩ := generate_random_array_spec env.rand
    ((List.range MAX_N.toNat).map (env.fresh 0)) 1000000 (by omega) (by decide)
  have hlen : base.length = 1000000 := by omega
  rw [show ((1000000 : Nat) : Int) = MAX_N by rfl] at hg
  have hlenI : (base.length : Int) = 1000000 := by omega
  obtain ⟨t0, ht0, hs0⟩ := main_test_ok env 0 1000 ⟨base, header, []⟩ (hok 1 (by omega))
    (by decide) (by show (1000 : Int) ≤ (base.length : Int); omega) (by decide)
  obtain ⟨t1, ht1, hs1⟩ := main_test_ok env 1 10000
    ⟨base, header ++ spec_line env 0 1000, [] ++ [t0]⟩ (hok 2 (by omega))
    (by decide) (by show (10000 : Int) ≤ (base.length : Int); omega) (by decide)
  obtain ⟨t2, ht2, hs2⟩ := main_test_ok env 2 100000
    ⟨base, header ++ spec_line env 0 1000 ++ spec_line env 1 10000, [] ++ [t0] ++ [t1]⟩
    (hok 3 (by omega))
    (by decide) (by show (100000 : Int) ≤ (base.length : Int); omega) (by decide)
  obtain ⟨t3, ht3, hs3⟩ := main_test_ok env 3 1000000
    ⟨base, header ++ spec_line env 0 1000 ++ spec_line env 1 10000 ++ spec_line env 2 100000,
      [] ++ [t0] ++ [t1] ++ [t2]⟩ (hok 4 (by omega))
    (by decide) (by show (1000000 : Int) ≤ (base.length : Int); omega) (by decide)
  have hloop : main_loop env ⟨base, header, []⟩ 0 = some
      ⟨base, header ++ spec_line env 0 1000 ++ spec_line env 1 10000 ++
        spec_line env 2 100000 ++ spec_line env 3 1000000,
        [] ++ [t0] ++ [t1] ++ [t2] ++ [t3]⟩ := by
    rw [main_loop_step env _ _ 0 1000 (by decide) (by decide) hs0 (by decide),
      show (0 : Int) + 1 = 1 by decide,
      main_loop_step env _ _ 1 10000 (by decide) (by decide) hs1 (by decide),
      show (1 : Int) + 1 = 2 by decide,
      main_loop_step env _ _ 2 100000 (by decide) (by decide) hs2 (by decide),
      show (2 : Int) + 1 = 3 by decide,
      main_loop_step env _ _ 3 1000000 (by decide) (by decide) hs3 (by decide),
      main_loop_exit env _ _ (by decide)]
  refine ⟨base, t0, t1, t2, t3, hg, hlen, fun k hk => ?_, ht0, ht1, ht2, ht3, ?_⟩
  · rw [hcell k, if_pos hk]
  · rw [main_of_steps env _ base _ hm hg hloop]
    rfl

/-! ## Properties of the output of `main` -/

/-- A data line is four comma-free fields joined by commas. -/
theorem splitOn_data_line (num t0 t1 t2 : List Char) (hn : ',' ∉ num) (h0 : ',' ∉ t0)
    (h1 : ',' ∉ t1) (h2 : ',' ∉ t2) :
    (num ++ [','] ++ t0 ++ [','] ++ t1 ++ [','] ++ t2).splitOn ',' = [num, t0, t1, t2] := by
  have h := List.splitOn_intercalate [num, t0, t1, t2] ','
    (by
      intro l hl
      simp only [List.mem_cons, List.mem_singleton, List.not_mem_nil, or_false] at hl
      rcases hl with rfl | rfl | rfl | rfl <;> assumption)
    (by simp)
  simpa [List.intercalate, List.append_assoc] using h

/-- C14: with the timings given as comma-free, newline-free text, the output of a
run of `main` in which every allocation succeeds (exit code 0) consists of
exactly `num_tests + 1 = 5` newline-terminated lines: the literal header
`N,Linear_Search_Time_s,Binary_Search_Time_s,Bubble_Sort_Time_s`, then one line
per size in the order 1000, 10000, 100000, 1000000, each with exactly 4
comma-separated fields, the first being the decimal `N`. -/
theorem main_csv_output (env : Env) (hok : ∀ k, k ≤ 4 → env.malloc_ok k = true)
    (htext : ∀ i c, ',' ∉ env.time_text i c ∧ '\n' ∉ env.time_text i c) :
    ∃ ex l1 l2 l3 l4, main env = some ex ∧ ex.code = 0 ∧
      ex.stdout =
        "N,Linear_Search_Time_s,Binary_Search_Time_s,Bubble_Sort_Time_s".toList ++ ['\n'] ++
          l1 ++ ['\n'] ++ l2 ++ ['\n'] ++ l3 ++ ['\n'] ++ l4 ++ ['\n'] ∧
      ex.stdout.splitOn '\n' =
        ["N,Linear_Search_Time_s,Binary_Search_Time_s,Bubble_Sort_Time_s".toList,
          l1, l2, l3, l4, []] ∧
      ((num_tests + 1 : Int) = 5 ∧ ex.stdout.count '\n' = 5) ∧
      l1.splitOn ',' = ["1000".toList, env.time_text 0 0, env.time_text 0 1,
        env.time_text 0 2] ∧
      l2.splitOn ',' = ["10000".toList, env.time_text 1 0, env.time_text 1 1,
        env.time_text 1 2] ∧
      l3.splitOn ',' = ["100000".toList, env.time_text 2 0, env.time_text 2 1,
        env.time_text 2 2] ∧
      l4.splitOn ',' = ["1000000".toList, env.time_text 3 0, env.time_text 3 1,
        env.time_text 3 2] ∧
      (toString (1000 : Int) = "1000" ∧ toString (10000 : Int) = "10000" ∧
        toString (100000 : Int) = "100000" ∧ toString (1000000 : Int) = "1000000") := by
  obtain ⟨base, t0, t1, t2, t3, _, _, _, _, _, _, _, hmain⟩ := main_spec env hok
  have hline : ∀ (i : Nat) (num : List Char), '\n' ∉ num →
      '\n' ∉ num ++ [','] ++ env.time_text i 0 ++ [','] ++ env.time_text i 1 ++ [','] ++
        env.time_text i 2 := by
    intro i num hnum
    have a0 := (htext i 0).2
    have a1 := (htext i 1).2
    have a2 := (htext i 2).2
    simp only [List.mem_append, List.mem_singleton, not_or]
    exact ⟨⟨⟨⟨⟨⟨hnum, by decide⟩, a0⟩, by decide⟩, a1⟩, by decide⟩, a2⟩
  have hsplit := List.splitOn_intercalate
    ["N,Linear_Search_Time_s,Binary_Search_Time_s,Bubble_Sort_Time_s".toList,
      "1000".toList ++ [','] ++ env.time_text 0 0 ++ [','] ++ env.time_text 0 1 ++ [','] ++
        env.time_text 0 2,
      "10000".toList ++ [','] ++ env.time_text 1 0 ++ [','] ++ env.time_text 1 1 ++ [','] ++
        env.time_text 1 2,
      "100000".toList ++ [','] ++ env.time_text 2 0 ++ [','] ++ env.time_text 2 1 ++ [','] ++
        env.time_text 2 2,
      "1000000".toList ++ [','] ++ env.time_text 3 0 ++ [','] ++ env.time_text 3 1 ++ [','] ++
        env.time_text 3 2,
      []] '\n'
    (by
      intro l hl
      simp only [List.mem_cons, List.mem_singleton, List.not_mem_nil, or_false] at hl
      rcases hl with rfl | rfl | rfl | rfl | rfl | rfl
      · decide
      · exact hline 0 _ (by decide)
      · exact hline 1 _ (by decide)
      · exact hline 2 _ (by decide)
      · exact hline 3 _ (by decide)
      · simp)
    (by simp)
  have hout : header ++ spec_line env 0 1000 ++ spec_line env 1 10000 ++
      spec_line env 2 100000 ++ spec_line env 3 1000000 =
      "N,Linear_Search_Time_s,Binary_Search_Time_s,Bubble_Sort_Time_s".toList ++ ['\n'] ++
        ("1000".toList ++ [','] ++ env.time_text 0 0 ++ [','] ++ env.time_text 0 1 ++ [','] ++
          env.time_text 0 2) ++ ['\n'] ++
        ("10000".toList ++ [','] ++ env.time_text 1 0 ++ [','] ++ env.time_text 1 1 ++ [','] ++
          env.time_text 1 2) ++ ['\n'] ++
        ("100000".toList ++ [','] ++ env.time_text 2 0 ++ [','] ++ env.time_text 2 1 ++ [','] ++
          env.time_text 2 2) ++ ['\n'] ++
        ("1000000".toList ++ [','] ++ env.time_text 3 0 ++ [','] ++ env.time_text 3 1 ++ [','] ++
          env.time_text 3 2) ++ ['\n'] := by
    have e0 : header =
        "N,Linear_Search_Time_s,Binary_Search_Time_s,Bubble_Sort_Time_s".toList ++ ['\n'] := by
      decide
    have e1 : (toString (1000 : Int)).toList = "1000".toList := by decide
    have e2 : (toString (10000 : Int)).toList = "10000".toList := by decide
    have e3 : (toString (100000 : Int)).toList = "100000".toList := by decide
    have e4 : (toString (1000000 : Int)).toList = "1000000".toList := by decide
    rw [e0]
    unfold spec_line
    rw [e1, e2, e3, e4]
    simp only [List.append_assoc]
  refine ⟨_, _, _, _, _, hmain, rfl, hout, ?_, ⟨by decide, ?_⟩,
    splitOn_data_line _ _ _ _ (by decide) (htext 0 0).1 (htext 0 1).1 (htext 0 2).1,
    splitOn_data_line _ _ _ _ (by decide) (htext 1 0).1 (htext 1 1).1 (htext 1 2).1,
    splitOn_data_line _ _ _ _ (by decide) (htext 2 0).1 (htext 2 1).1 (htext 2 2).1,
    splitOn_data_line _ _ _ _ (by decide) (htext 3 0).1 (htext 3 1).1 (htext 3 2).1,
    by decide, by decide, by decide, by decide⟩
  · show (header ++ spec_line env 0 1000 ++ spec_line env 1 10000 ++
      spec_line env 2 100000 ++ spec_line env 3 1000000).splitOn '\n' = _
    rw [hout, ← hsplit]
    congr 1
    simp [List.intercalate, List.append_assoc]
  · show (header ++ spec_line env 0 1000 ++ spec_line env 1 10000 ++
      spec_line env 2 100000 ++ spec_line env 3 1000000).count '\n' = 5
    rw [hout]
    have ct : ∀ i c, (env.time_text i c).count '\n' = 0 :=
      fun i c => List.count_eq_zero.2 (htext i c).2
    simp only [List.count_append, ct]
    decide

theorem main_csv_output_witness :
    ((∀ k, k ≤ 4 → sample_env.malloc_ok k = true) ∧
      ∀ i c, ',' ∉ sample_env.time_text i c ∧ '\n' ∉ sample_env.time_text i c) ∧
    ∃ ex l1 l2 l3 l4, main sample_env = some ex ∧ ex.code = 0 ∧
      ex.stdout =
        "N,Linear_Search_Time_s,Binary_Search_Time_s,Bubble_Sort_Time_s".toList ++ ['\n'] ++
          l1 ++ ['\n'] ++ l2 ++ ['\n'] ++ l3 ++ ['\n'] ++ l4 ++ ['\n'] ∧
      ex.stdout.splitOn '\n' =
        ["N,Linear_Search_Time_s,Binary_Search_Time_s,Bubble_Sort_Time_s".toList,
          l1, l2, l3, l4, []] ∧
      ((num_tests + 1 : Int) = 5 ∧ ex.stdout.count '\n' = 5) ∧
      l1.splitOn ',' = ["1000".toList, sample_env.time_text 0 0, sample_env.time_text 0 1,
        sample_env.time_text 0 2] ∧
      l2.splitOn ',' = ["10000".toList, sample_env.time_text 1 0, sample_env.time_text 1 1,
        sample_env.time_text 1 2] ∧
      l3.splitOn ',' = ["100000".toList, sample_env.time_text 2 0, sample_env.time_text 2 1,
        sample_env.time_text 2 2] ∧
      l4.splitOn ',' = ["1000000".toList, sample_env.time_text 3 0, sample_env.time_text 3 1,
        sample_env.time_text 3 2] ∧
      (toString (1000 : Int) = "1000" ∧ toString (10000 : Int) = "10000" ∧
        toString (100000 : Int) = "100000" ∧ toString (1000000 : Int) = "1000000") :=
  ⟨⟨fun _ _ => rfl, fun _ _ => by
      show ',' ∉ "0.000000".toList ∧ '\n' ∉ "0.000000".toList
      decide⟩,
    main_csv_output sample_env (fun _ _ => rfl) (fun _ _ => by
      show ',' ∉ "0.000000".toList ∧ '\n' ∉ "0.000000".toList
      decide)⟩

/-! ## Properties of the harness -/

theorem n_values_cases (i n : Int) (h : rd n_values i = some n) :
    (i = 0 ∧ n = 1000) ∨ (i = 1 ∧ n = 10000) ∨ (i = 2 ∧ n = 100000) ∨
      (i = 3 ∧ n = 1000000) := by
  unfold rd at h
  by_cases h0 : 0 ≤ i
  · rw [if_pos h0] at h
    obtain ⟨k, rfl⟩ := Int.eq_ofNat_of_zero_le h0
    rw [Int.toNat_ofNat] at h
    have hk : k < 4 := by
      by_contra hc
      rw [List.getElem?_eq_none (by simp [n_values]; omega)] at h
      exact Option.noConfusion h
    have hk4 : k = 0 ∨ k = 1 ∨ k = 2 ∨ k = 3 := by omega
    rcases hk4 with rfl | rfl | rfl | rfl
    · exact Or.inl ⟨rfl, (Option.some.inj h).symm⟩
    · exact Or.inr (Or.inl ⟨rfl, (Option.some.inj h).symm⟩)
    · exact Or.inr (Or.inr (Or.inl ⟨rfl, (Option.some.inj h).symm⟩))
    · exact Or.inr (Or.inr (Or.inr ⟨rfl, (Option.some.inj h).symm⟩))
  · rw [if_neg h0] at h
    exact Option.noConfusion h

theorem rd_reverse_take (base : List Int) (n : Nat) (hn : n ≤ base.length) (k : Int)
    (h0 : 0 ≤ k) (h1 : k < (n : Int)) :
    rd (base.take n).reverse k = rd base ((n : Int) - 1 - k) := by
  obtain ⟨j, rfl⟩ := Int.eq_ofNat_of_zero_le h0
  have hl : (base.take n).length = n := by rw [List.length_take]; omega
  rw [show (n : Int) - 1 - (j : Int) = ((n - 1 - j : Nat) : Int) by omega, rd_natCast,
    rd_natCast, List.getElem?_reverse (by omega), hl, List.getElem?_take, if_pos (by omega)]

/-- C18: in a run of `main` in which every allocation succeeds, for every size `n`
of the size list the array handed to the measured `bubble_sort` of Test 3 is
the reversal of the first `n` cells of the base array as generated (cell `k`
holds base cell `n-1-k`; it is what `reverse_array` makes of a copy of those
cells, whatever Test 2 did), and the base array is at the end of the run what
`generate_random_array` made it. -/
theorem main_test3_input (env : Env) (hok : ∀ k, k ≤ 4 → env.malloc_ok k = true) :
    ∃ base ex,
      generate_random_array env.rand ((List.range MAX_N.toNat).map (env.fresh 0)) MAX_N =
        some base ∧
      main env = some ex ∧ ex.arr_base = base ∧
      ∀ i n, rd n_values i = some n →
        ∃ t, ex.tests[i.toNat]? = some t ∧ t.n = n ∧
          t.test3_input = (base.take n.toNat).reverse ∧
          reverse_array (base.take n.toNat) n = some t.test3_input ∧
          ∀ k, 0 ≤ k → k < n → rd t.test3_input k = rd base (n - 1 - k) := by
  obtain ⟨base, t0, t1, t2, t3, hg, hlen, _, h0, h1, h2, h3, hmain⟩ := main_spec env hok
  refine ⟨base, _, hg, hmain, rfl, fun i n hin => ?_⟩
  have key : ∀ (m : Nat) (t : TestRun), m ≤ 1000000 → test_record_ok base (m : Int) t →
      t.n = (m : Int) ∧ t.test3_input = (base.take (m : Int).toNat).reverse ∧
      reverse_array (base.take (m : Int).toNat) (m : Int) = some t.test3_input ∧
      ∀ k, 0 ≤ k → k < (m : Int) → rd t.test3_input k = rd base ((m : Int) - 1 - k) := by
    intro m t hm ht
    obtain ⟨a1, _, a3, _⟩ := ht
    rw [Int.toNat_ofNat] at a3
    refine ⟨a1, by rw [Int.toNat_ofNat]; exact a3, ?_, fun k hk0 hk1 => ?_⟩
    · rw [Int.toNat_ofNat, a3]
      exact reverse_array_eq_reverse (base.take m) m (by rw [List.length_take]; omega)
        (by simp only [INT_MAX]; omega)
    · rw [a3]
      exact rd_reverse_take base m (by omega) k hk0 hk1
  rcases n_values_cases i n hin with ⟨rfl, rfl⟩ | ⟨rfl, rfl⟩ | ⟨rfl, rfl⟩ | ⟨rfl, rfl⟩
  · exact ⟨t0, rfl, key 1000 t0 (by omega) h0⟩
  · exact ⟨t1, rfl, key 10000 t1 (by omega) h1⟩
  · exact ⟨t2, rfl, key 100000 t2 (by omega) h2⟩
  · exact ⟨t3, rfl, key 1000000 t3 (by omega) h3⟩

theorem main_test3_input_witness :
    (∀ k, k ≤ 4 → sample_env.malloc_ok k = true) ∧
    ∃ base ex,
      generate_random_array sample_env.rand
        ((List.range MAX_N.toNat).map (sample_env.fresh 0)) MAX_N = some base ∧
      main sample_env = some ex ∧ ex.arr_base = base ∧
      ∀ i n, rd n_values i = some n →
        ∃ t, ex.tests[i.toNat]? = some t ∧ t.n = n ∧
          t.test3_input = (base.take n.toNat).reverse ∧
          reverse_array (base.take n.toNat) n = some t.test3_input ∧
          ∀ k, 0 ≤ k → k < n → rd t.test3_input k = rd base (n - 1 - k) :=
  ⟨fun _ _ => rfl, main_test3_input sample_env (fun _ _ => rfl)⟩

/-- C19 (the code at a failing input): with `rand()` returning 1 and then 0, the
base array starts `1, 0, ...`; for the size 1000 the array handed to the
measured `bubble_sort` of Test 3 holds 0 at index 998 and 1 at index 999, so it
is not in non-increasing order. -/
theorem test3_input_not_reverse_sorted :
    ∃ ex t a b, main sample_env = some ex ∧ ex.tests[0]? = some t ∧ t.n = 1000 ∧
      rd t.test3_input 998 = some a ∧ rd t.test3_input (998 + 1) = some b ∧
      a = 0 ∧ b = 1 ∧ ¬ a ≥ b := by
  obtain ⟨base, t0, t1, t2, t3, _, hlen, hcell, h0, _, _, _, hmain⟩ :=
    main_spec sample_env (fun _ _ => rfl)
  obtain ⟨hn, _, hin, _⟩ := h0
  have e1 : rd t0.test3_input 998 = some 0 := by
    rw [hin]
    have h := rd_reverse_take base 1000 (by omega) 998 (by decide) (by decide)
    rw [show ((1000 : Nat) : Int) - 1 - 998 = ((1 : Nat) : Int) by decide, rd_natCast,
      hcell 1 (by omega)] at h
    exact h
  have e2 : rd t0.test3_input (998 + 1) = some 1 := by
    rw [hin]
    have h := rd_reverse_take base 1000 (by omega) (998 + 1) (by decide) (by decide)
    rw [show ((1000 : Nat) : Int) - 1 - (998 + 1) = ((0 : Nat) : Int) by decide, rd_natCast,
      hcell 0 (by omega)] at h
    exact h
  exact ⟨_, t0, 0, 1, hmain, rfl, hn, e1, e2, rfl, rfl, by decide⟩

/-- C20: the result of `bubble_sort` depends only on the multiset of its input:
for arrays `a` and `b` of length `n` that are permutations of each other (so of
the same length), `bubble_sort(a, n)` and `bubble_sort(b, n)` leave identical
arrays; `bubble_sort` after `reverse_array` leaves the same array as
`bubble_sort` alone; and in a run of `main` in which every allocation succeeds
the array at the end of Test 3 equals the array sorted in Test 2, for each of
the four sizes. -/
theorem bubble_sort_multiset (a b : List Int) (n : Int) (env : Env)
    (ha : (a.length : Int) = n) (hmax : n ≤ INT_MAX) (hperm : a.Perm b)
    (hok : ∀ k, k ≤ 4 → env.malloc_ok k = true) :
    (b.length : Int) = n ∧
    (∃ s, bubble_sort a n = some s ∧ bubble_sort b n = some s) ∧
    (∃ r s, reverse_array a n = some r ∧ bubble_sort r n = some s ∧
      bubble_sort a n = some s) ∧
    (∃ ex, main env = some ex ∧ ex.tests.length = 4 ∧
      ∀ t ∈ ex.tests, t.test3_output = t.sorted) := by
  obtain ⟨m, rfl⟩ := Int.eq_ofNat_of_zero_le (show 0 ≤ n by omega)
  have ham : a.length = m := by omega
  have hbm : b.length = m := by rw [← hperm.length_eq]; exact ham
  obtain ⟨s, hs, hsl, hsp, _, hss⟩ := bubble_sort_spec a m (by omega) hmax
  have hso : s.Sorted (· ≤ ·) := by
    refine List.pairwise_iff_getElem.2 (fun i j hi hj hij => ?_)
    rw [← List.getD_eq_getElem s 0 hi, ← List.getD_eq_getElem s 0 hj]
    exact hss j i (by omega) hij
  refine ⟨by omega, ⟨s, hs, ?_⟩, ⟨a.reverse, s, ?_, ?_, hs⟩, ?_⟩
  · exact bubble_sort_eq_of_sorted_perm b s m hbm hmax (hsp.trans hperm) hso
  · exact reverse_array_eq_reverse a m ham hmax
  · exact bubble_sort_eq_of_sorted_perm a.reverse s m (by rw [List.length_reverse]; exact ham)
      hmax (hsp.trans (List.reverse_perm a).symm) hso
  · obtain ⟨base, t0, t1, t2, t3, _, _, _, h0, h1, h2, h3, hmain⟩ := main_spec env hok
    refine ⟨_, hmain, rfl, fun t ht => ?_⟩
    simp only [List.mem_cons, List.mem_singleton, List.not_mem_nil, or_false] at ht
    rcases ht with rfl | rfl | rfl | rfl
    · exact h0.2.2.2
    · exact h1.2.2.2
    · exact h2.2.2.2
    · exact h3.2.2.2

theorem bubble_sort_multiset_witness :
    (((([3, 1, 2] : List Int).length : Int) = 3) ∧ (3 : Int) ≤ INT_MAX ∧
      ([3, 1, 2] : List Int).Perm [2, 3, 1] ∧
      ∀ k, k ≤ 4 → sample_env.malloc_ok k = true) ∧
    ((([2, 3, 1] : List Int).length : Int) = 3 ∧
    (∃ s, bubble_sort [3, 1, 2] 3 = some s ∧ bubble_sort [2, 3, 1] 3 = some s) ∧
    (∃ r s, reverse_array [3, 1, 2] 3 = some r ∧ bubble_sort r 3 = some s ∧
      bubble_sort [3, 1, 2] 3 = some s) ∧
    (∃ ex, main sample_env = some ex ∧ ex.tests.length = 4 ∧
      ∀ t ∈ ex.tests, t.test3_output = t.sorted)) :=
  ⟨⟨by decide, by decide, by decide, fun _ _ => rfl⟩,
    bubble_sort_multiset [3, 1, 2] [2, 3, 1] 3 sample_env (by decide) (by decide) (by decide)
      (fun _ _ => rfl)⟩

/-! ## Concrete runs of the instrumented functions and of the harness -/

theorem binary_search_trace_run :
    binary_search_trace [1, 3, 5, 7] 0 3 7 =
      some (3, [⟨0, 3, 1⟩, ⟨2, 3, 2⟩, ⟨3, 3, 3⟩]) := by
  simp [binary_search_trace, midpoint, Int.tdiv, rd, fits, INT_MIN, INT_MAX]

theorem bubble_sort_trace_run :
    bubble_sort_trace [2, 1, 3] 3 = some ([1, 2, 3], [[(0, 1), (1, 2)], [(0, 1)]]) := by
  simp [bubble_sort_trace, bubble_sort_outer_trace, bubble_sort_inner_trace, rd, wr, fits,
    INT_MIN, INT_MAX]

theorem copy_loop_run : copy_loop [4, 5, 6, 7] [0, 0, 0] 3 0 = some [4, 5, 6] := by
  simp [copy_loop, rd, wr, fits, INT_MIN, INT_MAX]

/-- When the allocation of the base array fails, `main` prints the diagnostic on
standard error, nothing on standard output, and exits with code 1. -/
theorem main_allocation_failure (env : Env) (h : env.malloc_ok 0 = false) :
    main env = some ⟨1, [], "Memory allocation failed.\n".toList, [], []⟩ := by
  have hm : malloc env 0 MAX_N = none := by
    rw [malloc, h]
    rfl
  rw [main, hm]

end Code
